/-
  Verification of the university-timetabling core
  (constraint state, backtracking search, scoring).

  Shallow embedding of the C++ sources:
    - Project/src/constraints.cpp      (TimetableState)
    - Project/sequential/sequential_solver.cpp
    - Project/threads/threaded_solver.cpp

  Machine integers are modelled as Int (values stay far below 2^31, and the
  workload counter is capped at 82 by the local check, so overflow never
  occurs on the C++ side either).  Schedules (std::vector<Grid> with
  Grid = vector<vector<int>>) are modelled as nested Lists.  The imperative
  place/undo pair is modelled as state-passing functions; `place` returns
  (Bool × TimetableState) so that the tentative professor-hours increment
  and its revert on the failure path are represented faithfully.
-/
import Mathlib

namespace Timetable

/-- Days in the timetable grid (model.hpp: DAYS = 5). -/
def DAYS : Int := 5

/-- Slots per day (model.hpp: SLOTS_PER_DAY = 6). -/
def SLOTS_PER_DAY : Int := 6

/-- Sentinel marking an empty schedule cell (constraints.hpp: kNone = -1). -/
def kNone : Int := -1

/-- Activity types (model.hpp: enum class ActivityType). -/
inductive ActivityType where
  | COURSE | SEMINAR | LAB
deriving DecidableEq, Repr

/-- Room types (model.hpp: Room::Type). -/
inductive RoomType where
  | COURSE | SEMINAR | LAB
deriving DecidableEq, Repr

/-- model.hpp: struct Building (the name string is never read by the core). -/
structure Building where
  id : Int
deriving DecidableEq, Repr, Inhabited

/-- model.hpp: struct Room (name string omitted; never read by the core). -/
structure Room where
  id : Int
  buildingId : Int
  capacity : Int
  type : RoomType
deriving DecidableEq, Repr

instance : Inhabited Room := ⟨⟨0, 0, 0, RoomType.COURSE⟩⟩

/-- model.hpp: struct Professor (only the id is read by the core search). -/
structure Professor where
  id : Int
deriving DecidableEq, Repr, Inhabited

/-- model.hpp: struct Group (only the id is read by the core search). -/
structure Group where
  id : Int
deriving DecidableEq, Repr, Inhabited

/-- model.hpp: struct Activity. -/
structure Activity where
  id : Int
  subjectId : Int
  type : ActivityType
  profId : Int
  groupIds : List Int
deriving DecidableEq, Repr

instance : Inhabited Activity := ⟨⟨0, 0, ActivityType.COURSE, 0, []⟩⟩

/-- model.hpp: struct ProblemInstance (subjects are never read by the core). -/
structure ProblemInstance where
  buildings : List Building
  rooms : List Room
  professors : List Professor
  groups : List Group
  activities : List Activity
  travelTime : List (List Int)
deriving DecidableEq, Repr

/-- constraints.hpp: struct Placement. -/
structure Placement where
  activityId : Int
  day : Int
  slot : Int
  roomIndex : Int
deriving DecidableEq, Repr

instance : Inhabited Placement := ⟨⟨-1, 0, 0, 0⟩⟩

/-- solver_base.hpp: a complete solution (placements plus score). -/
structure TimetableSolution where
  placements : List Placement
  score : Int
deriving DecidableEq, Repr

/-- Row of one day's slots: vector<int> indexed by slot. -/
abbrev SRow := List Int

/-- One resource's grid: vector<vector<int>> indexed [day][slot]. -/
abbrev SGrid := List SRow

/-- A full schedule: vector<Grid> indexed [resource][day][slot]. -/
abbrev Sched := List SGrid

/-- Read schedules[i][day][slot] (in real executions always in bounds). -/
def get3 (s : Sched) (i d t : Nat) : Int :=
  (((s.getD i []).getD d []).getD t kNone)

/-- Write schedules[i][day][slot] := v. -/
def set3 (s : Sched) (i d t : Nat) (v : Int) : Sched :=
  s.set i ((s.getD i []).set d (((s.getD i []).getD d []).set t v))

/-- constraints.hpp: class TimetableState (mutable search state). -/
structure TimetableState where
  roomSchedule : Sched
  profSchedule : Sched
  groupSchedule : Sched
  profHours : List Int
deriving DecidableEq, Repr

/-- TimetableState::TimetableState — empty state for an instance. -/
def mkState (inst : ProblemInstance) : TimetableState :=
  { roomSchedule :=
      List.replicate inst.rooms.length (List.replicate 5 (List.replicate 6 kNone))
    profSchedule :=
      List.replicate inst.professors.length (List.replicate 5 (List.replicate 6 kNone))
    groupSchedule :=
      List.replicate inst.groups.length (List.replicate 5 (List.replicate 6 kNone))
    profHours := List.replicate inst.professors.length 0 }

/-- Index of the first list element satisfying `p` (the C++ linear
    search loop in profIndex/groupIndex), `none` for the return value -1. -/
def idxOfPred {α : Type} (p : α → Bool) : List α → Option Nat
  | [] => none
  | a :: t => if p a then some 0 else (idxOfPred p t).map (· + 1)

/-- TimetableState::profIndex — first index with matching professor id,
    `none` playing the role of the C++ return value -1. -/
def profIndexQ (inst : ProblemInstance) (profId : Int) : Option Nat :=
  idxOfPred (fun p => p.id == profId) inst.professors

/-- TimetableState::groupIndex — first index with matching group id,
    `none` playing the role of the C++ return value -1. -/
def groupIndexQ (inst : ProblemInstance) (groupId : Int) : Option Nat :=
  idxOfPred (fun g => g.id == groupId) inst.groups

/-- TimetableState::roomToBuildingIndex — -1 when the room index is out of
    range or the referenced building id does not index inst.buildings. -/
def roomToBuildingIndex (inst : ProblemInstance) (roomIndex : Int) : Int :=
  if roomIndex < 0 ∨ (inst.rooms.length : Int) ≤ roomIndex then -1
  else
    let buildingId := (inst.rooms.getD roomIndex.toNat default).buildingId
    if buildingId < 0 ∨ (inst.buildings.length : Int) ≤ buildingId then -1
    else buildingId

/-- TimetableState::checkRoomFree. -/
def checkRoomFree (σ : TimetableState) (roomIndex d t : Nat) : Bool :=
  get3 σ.roomSchedule roomIndex d t == kNone

/-- TimetableState::checkGroupsFree — false if any group id is unknown or
    its cell at (day, slot) is occupied. -/
def checkGroupsFree (inst : ProblemInstance) (σ : TimetableState)
    (act : Activity) (d t : Nat) : Bool :=
  act.groupIds.all (fun gid =>
    match groupIndexQ inst gid with
    | none => false
    | some gIdx => get3 σ.groupSchedule gIdx d t == kNone)

/-- TimetableState::checkProfFree. -/
def checkProfFree (inst : ProblemInstance) (σ : TimetableState)
    (act : Activity) (d t : Nat) : Bool :=
  match profIndexQ inst act.profId with
  | none => false
  | some pIdx => get3 σ.profSchedule pIdx d t == kNone

/-- TimetableState::checkCourseAllGroupsFree — placeholder, always true. -/
def checkCourseAllGroupsFree (_inst : ProblemInstance) (_σ : TimetableState)
    (_act : Activity) (_d _t : Nat) : Bool :=
  true

/-- The room loop in checkTravelTimes: first room whose cell at (day, slot)
    holds activity id `a`. -/
def findRoomOf (σ : TimetableState) (a : Int) (d t : Nat) : Option Nat :=
  (List.range σ.roomSchedule.length).find? (fun r => get3 σ.roomSchedule r d t == a)

/-- travelTime[a][b] (always read with valid indices by the C++ code). -/
def travelAt (inst : ProblemInstance) (a b : Int) : Int :=
  (inst.travelTime.getD a.toNat []).getD b.toNat 0

/-- The previous-slot block of the checkEntity lambda inside
    TimetableState::checkTravelTimes (constraints.cpp lines 192-206). -/
def prevSlotOk (inst : ProblemInstance) (σ : TimetableState)
    (sched : Sched) (eIdx d t : Nat) (bIdx : Int) : Bool :=
  if 0 < t then
    if get3 sched eIdx d (t - 1) != kNone then
      match findRoomOf σ (get3 sched eIdx d (t - 1)) d (t - 1) with
      | some r =>
          if roomToBuildingIndex inst (Int.ofNat r) < 0 then false
          else travelAt inst (roomToBuildingIndex inst (Int.ofNat r)) bIdx ≤ 10
      | none => true
    else true
  else true

/-- The next-slot block of the checkEntity lambda (lines 207-221). -/
def nextSlotOk (inst : ProblemInstance) (σ : TimetableState)
    (sched : Sched) (eIdx d t : Nat) (bIdx : Int) : Bool :=
  if t < 5 then
    if get3 sched eIdx d (t + 1) != kNone then
      match findRoomOf σ (get3 sched eIdx d (t + 1)) d (t + 1) with
      | some r =>
          if roomToBuildingIndex inst (Int.ofNat r) < 0 then false
          else travelAt inst bIdx (roomToBuildingIndex inst (Int.ofNat r)) ≤ 10
      | none => true
    else true
  else true

/-- The checkEntity lambda inside TimetableState::checkTravelTimes: check one
    professor or group row against the previous and next slot of the day. -/
def checkEntityTravel (inst : ProblemInstance) (σ : TimetableState)
    (sched : Sched) (eIdx d t : Nat) (bIdx : Int) : Bool :=
  if !prevSlotOk inst σ sched eIdx d t bIdx then false
  else nextSlotOk inst σ sched eIdx d t bIdx

/-- TimetableState::checkTravelTimes. -/
def checkTravelTimes (inst : ProblemInstance) (σ : TimetableState)
    (act : Activity) (d t roomIndex : Nat) : Bool :=
  let bIdx := roomToBuildingIndex inst (Int.ofNat roomIndex)
  if bIdx < 0 then false
  else
    match profIndexQ inst act.profId with
    | none => false
    | some pIdx =>
        if !checkEntityTravel inst σ σ.profSchedule pIdx d t bIdx then false
        else
          act.groupIds.all (fun gid =>
            match groupIndexQ inst gid with
            | none => false
            | some gIdx => checkEntityTravel inst σ σ.groupSchedule gIdx d t bIdx)

/-- TimetableState::checkProfWorkloadLocal — upper bound only. -/
def checkProfWorkloadLocal (σ : TimetableState) (pIdx : Nat) : Bool :=
  !(80 < σ.profHours.getD pIdx 0)

/-- TimetableState::checkFinalWorkloadBounds — each professor in [4, 80]. -/
def checkFinalWorkloadBounds (inst : ProblemInstance) (σ : TimetableState) : Bool :=
  (List.range inst.professors.length).all (fun i =>
    let hours := σ.profHours.getD i 0
    4 ≤ hours && hours ≤ 80)

/-- The commit loop over act.groupIds shared by place (v = act.id) and
    undo (v = kNone): cells of unknown group ids are skipped. -/
def writeGroups (inst : ProblemInstance) (gids : List Int) (d t : Nat)
    (v : Int) (g : Sched) : Sched :=
  gids.foldl (fun gs gid =>
    match groupIndexQ inst gid with
    | some gIdx => set3 gs gIdx d t v
    | none => gs) g

/-- TimetableState::place with day/slot/roomIndex already known to be in
    bounds (the wrapper `place` performs the C++ bounds checks). -/
def placeCore (inst : ProblemInstance) (act : Activity) (d t r : Nat)
    (σ : TimetableState) : Bool × TimetableState :=
  match profIndexQ inst act.profId with
  | none => (false, σ)
  | some pIdx =>
    if !checkRoomFree σ r d t then (false, σ)
    else if !checkGroupsFree inst σ act d t then (false, σ)
    else if act.type == ActivityType.COURSE
            && !checkCourseAllGroupsFree inst σ act d t then (false, σ)
    else if !checkProfFree inst σ act d t then (false, σ)
    else if !checkTravelTimes inst σ act d t r then (false, σ)
    else
      let σ1 : TimetableState :=
        { σ with profHours := σ.profHours.set pIdx (σ.profHours.getD pIdx 0 + 2) }
      if !checkProfWorkloadLocal σ1 pIdx then
        (false, { σ1 with
                  profHours := σ1.profHours.set pIdx (σ1.profHours.getD pIdx 0 - 2) })
      else
        (true, { σ1 with
                 roomSchedule := set3 σ1.roomSchedule r d t act.id,
                 profSchedule := set3 σ1.profSchedule pIdx d t act.id,
                 groupSchedule := writeGroups inst act.groupIds d t act.id σ1.groupSchedule })

/-- TimetableState::place (constraints.cpp lines 37-87). -/
def place (inst : ProblemInstance) (act : Activity) (day slot roomIndex : Int)
    (σ : TimetableState) : Bool × TimetableState :=
  if day < 0 ∨ DAYS ≤ day ∨ slot < 0 ∨ SLOTS_PER_DAY ≤ slot then (false, σ)
  else if roomIndex < 0 ∨ (inst.rooms.length : Int) ≤ roomIndex then (false, σ)
  else placeCore inst act day.toNat slot.toNat roomIndex.toNat σ

/-- TimetableState::undo (constraints.cpp lines 95-112). -/
def undo (inst : ProblemInstance) (act : Activity) (day slot roomIndex : Int)
    (σ : TimetableState) : TimetableState :=
  let σ1 :=
    match profIndexQ inst act.profId with
    | some pIdx =>
        { σ with profHours := σ.profHours.set pIdx (σ.profHours.getD pIdx 0 - 2) }
    | none => σ
  let σ2 :=
    if 0 ≤ roomIndex ∧ roomIndex < (σ1.roomSchedule.length : Int) then
      { σ1 with roomSchedule := set3 σ1.roomSchedule roomIndex.toNat day.toNat slot.toNat kNone }
    else σ1
  let σ3 :=
    { σ2 with groupSchedule := writeGroups inst act.groupIds day.toNat slot.toNat kNone σ2.groupSchedule }
  match profIndexQ inst act.profId with
  | some pIdx =>
      { σ3 with profSchedule := set3 σ3.profSchedule pIdx day.toNat slot.toNat kNone }
  | none => σ3

/-- Dimension discipline of a schedule: `n` resources, 5 days, 6 slots. -/
def schedDims (n : Nat) (s : Sched) : Prop :=
  s.length = n ∧ ∀ g ∈ s, g.length = 5 ∧ ∀ r ∈ g, r.length = 6

instance (n : Nat) (s : Sched) : Decidable (schedDims n s) := by
  unfold schedDims; infer_instance

/-- Well-formedness of a TimetableState with respect to its instance:
    exactly the shape the constructor allocates. -/
def WF (inst : ProblemInstance) (σ : TimetableState) : Prop :=
  schedDims inst.rooms.length σ.roomSchedule ∧
  schedDims inst.professors.length σ.profSchedule ∧
  schedDims inst.groups.length σ.groupSchedule ∧
  σ.profHours.length = inst.professors.length

instance (inst : ProblemInstance) (σ : TimetableState) : Decidable (WF inst σ) := by
  unfold WF; infer_instance

/-! ### Generic list lemmas -/

theorem getD_oob {α : Type} {l : List α} {i : Nat} (d : α) (h : l.length ≤ i) :
    l.getD i d = d := by
  rw [List.getD_eq_getElem?_getD, List.getElem?_eq_none h]; rfl

theorem getD_set_self {α : Type} {l : List α} {i : Nat} (v d : α) (h : i < l.length) :
    (l.set i v).getD i d = v := by
  rw [List.getD_eq_getElem?_getD, List.getElem?_set_self h]; rfl

theorem getD_set_ne {α : Type} {l : List α} {i j : Nat} (v d : α) (h : i ≠ j) :
    (l.set i v).getD j d = l.getD j d := by
  rw [List.getD_eq_getElem?_getD, List.getElem?_set_ne h, ← List.getD_eq_getElem?_getD]

theorem set_getD_self {α : Type} (l : List α) (i : Nat) (d : α) :
    l.set i (l.getD i d) = l := by
  induction l generalizing i with
  | nil => rfl
  | cons a t ih =>
    cases i with
    | zero => simp
    | succ j => simp only [List.getD_cons_succ, List.set_cons_succ, ih]

theorem ext_getD {α : Type} {l₁ l₂ : List α} (d : α)
    (hlen : l₁.length = l₂.length)
    (h : ∀ i, l₁.getD i d = l₂.getD i d) : l₁ = l₂ := by
  induction l₁ generalizing l₂ with
  | nil => cases l₂ with
    | nil => rfl
    | cons b t => simp at hlen
  | cons a t ih =>
    cases l₂ with
    | nil => simp at hlen
    | cons b t₂ =>
      have h0 := h 0
      simp only [List.getD_cons_zero] at h0
      subst h0
      have := @ih t₂ (by simpa using hlen) (fun i => by simpa using h (i + 1))
      rw [this]

theorem getD_mem {α : Type} {l : List α} {i : Nat} (d : α) (h : i < l.length) :
    l.getD i d ∈ l := by
  rw [List.getD_eq_getElem?_getD, List.getElem?_eq_getElem h]
  exact List.getElem_mem h

theorem idxOfPred_lt_length {α : Type} {p : α → Bool} {l : List α} {i : Nat}
    (h : idxOfPred p l = some i) : i < l.length := by
  induction l generalizing i with
  | nil => simp [idxOfPred] at h
  | cons a t ih =>
    by_cases hp : p a
    · simp only [idxOfPred, hp, if_true, Option.some.injEq] at h
      simp [← h]
    · cases hres : idxOfPred p t with
      | none => simp [idxOfPred, hp, hres] at h
      | some j =>
        simp [idxOfPred, hp, hres] at h
        have := ih hres
        simp only [List.length_cons]
        omega

theorem idxOfPred_getD {α : Type} {p : α → Bool} {l : List α} {i : Nat} (d : α)
    (h : idxOfPred p l = some i) : p (l.getD i d) = true := by
  induction l generalizing i with
  | nil => simp [idxOfPred] at h
  | cons a t ih =>
    by_cases hp : p a
    · simp only [idxOfPred, hp, if_true, Option.some.injEq] at h
      rw [← h]
      simpa using hp
    · cases hres : idxOfPred p t with
      | none => simp [idxOfPred, hp, hres] at h
      | some j =>
        simp [idxOfPred, hp, hres] at h
        rw [← h]
        simpa using ih hres

/-! ### get3 / set3 lemmas -/

theorem length_set3 (s : Sched) (i d t : Nat) (v : Int) :
    (set3 s i d t v).length = s.length := by
  simp [set3]

theorem get3_set3_self {s : Sched} {i d t : Nat} (v : Int)
    (hi : i < s.length) (hd : d < (s.getD i []).length)
    (ht : t < ((s.getD i []).getD d []).length) :
    get3 (set3 s i d t v) i d t = v := by
  unfold get3 set3
  rw [getD_set_self _ _ hi,
      getD_set_self _ _ (by simpa using hd),
      getD_set_self _ _ (by simpa using ht)]

theorem get3_set3_ne {s : Sched} {i d t x y z : Nat} (v : Int)
    (h : ¬(x = i ∧ y = d ∧ z = t)) :
    get3 (set3 s i d t v) x y z = get3 s x y z := by
  unfold get3 set3
  rcases eq_or_ne x i with rfl | hxi
  · rcases Nat.lt_or_ge x s.length with hlen | hlen
    · rw [getD_set_self _ _ hlen]
      rcases eq_or_ne y d with rfl | hyd
      · rcases Nat.lt_or_ge y (s.getD x []).length with hdl | hdl
        · rw [getD_set_self _ _ hdl]
          have hzt : z ≠ t := fun hz => h ⟨rfl, rfl, hz⟩
          rw [getD_set_ne _ _ (Ne.symm hzt)]
        · rw [List.set_eq_of_length_le hdl]
      · rw [getD_set_ne _ _ (Ne.symm hyd)]
    · rw [List.set_eq_of_length_le hlen]
  · rw [getD_set_ne _ _ (Ne.symm hxi)]

theorem set3_cancel {s : Sched} {i d t : Nat} {v : Int}
    (h : get3 s i d t = v) : set3 s i d t v = s := by
  unfold get3 at h
  unfold set3
  rw [← h, set_getD_self, set_getD_self, set_getD_self]

theorem set3_set3_same (s : Sched) (i d t : Nat) (v w : Int) :
    set3 (set3 s i d t v) i d t w = set3 s i d t w := by
  unfold set3
  rcases Nat.lt_or_ge i s.length with hi | hi
  · rw [List.set_set, getD_set_self _ _ hi]
    rcases Nat.lt_or_ge d (s.getD i []).length with hd | hd
    · rw [getD_set_self _ _ (by simpa using hd), List.set_set, List.set_set]
    · have e1 : ((s.getD i []).set d (((s.getD i []).getD d []).set t v))
          = s.getD i [] := List.set_eq_of_length_le hd
      rw [e1]
  · simp only [List.set_eq_of_length_le hi]

theorem schedDims_set3 {n : Nat} {s : Sched} (i d t : Nat) (v : Int)
    (h : schedDims n s) : schedDims n (set3 s i d t v) := by
  obtain ⟨hlen, hmem⟩ := h
  rcases Nat.lt_or_ge i s.length with hi | hi
  · refine ⟨by simpa [set3] using hlen, ?_⟩
    intro g hg
    unfold set3 at hg
    rcases List.mem_or_eq_of_mem_set hg with hg' | rfl
    · exact hmem g hg'
    · obtain ⟨h5, h6⟩ := hmem _ (getD_mem [] hi)
      rcases Nat.lt_or_ge d (s.getD i []).length with hd | hd
      · refine ⟨by simpa using h5, ?_⟩
        intro r hr
        rcases List.mem_or_eq_of_mem_set hr with hr' | rfl
        · exact h6 r hr'
        · have hr6 := h6 _ (getD_mem [] hd)
          simpa using hr6
      · rw [List.set_eq_of_length_le hd]
        exact ⟨h5, h6⟩
  · unfold set3
    rw [List.set_eq_of_length_le hi]
    exact ⟨hlen, hmem⟩

/-! ### Extensionality for schedules -/

theorem sched_ext {n : Nat} {s₁ s₂ : Sched}
    (h₁ : schedDims n s₁) (h₂ : schedDims n s₂)
    (h : ∀ x y z, get3 s₁ x y z = get3 s₂ x y z) : s₁ = s₂ := by
  obtain ⟨hl₁, hm₁⟩ := h₁
  obtain ⟨hl₂, hm₂⟩ := h₂
  refine ext_getD [] (by rw [hl₁, hl₂]) ?_
  intro i
  rcases Nat.lt_or_ge i n with hi | hi
  · have hi₁ : i < s₁.length := by omega
    have hi₂ : i < s₂.length := by omega
    have hg₁ := hm₁ _ (getD_mem [] hi₁)
    have hg₂ := hm₂ _ (getD_mem [] hi₂)
    have h5₁ : (s₁.getD i []).length = 5 := hg₁.1
    have h5₂ : (s₂.getD i []).length = 5 := hg₂.1
    refine ext_getD [] (by rw [h5₁, h5₂]) ?_
    intro y
    rcases Nat.lt_or_ge y 5 with hy | hy
    · have hy₁ : y < (s₁.getD i []).length := by omega
      have hy₂ : y < (s₂.getD i []).length := by omega
      have h6₁ : ((s₁.getD i []).getD y []).length = 6 := hg₁.2 _ (getD_mem [] hy₁)
      have h6₂ : ((s₂.getD i []).getD y []).length = 6 := hg₂.2 _ (getD_mem [] hy₂)
      exact ext_getD kNone (by rw [h6₁, h6₂]) (fun z => h i y z)
    · rw [getD_oob [] (by omega), getD_oob [] (by omega)]
  · rw [getD_oob [] (by omega), getD_oob [] (by omega)]

/-! ### writeGroups lemmas -/

theorem schedDims_writeGroups {inst : ProblemInstance} {n : Nat} {gids : List Int}
    {d t : Nat} {v : Int} {g : Sched} (h : schedDims n g) :
    schedDims n (writeGroups inst gids d t v g) := by
  induction gids generalizing g with
  | nil => exact h
  | cons gid rest ih =>
    show schedDims n (writeGroups inst rest d t v _)
    cases hq : groupIndexQ inst gid with
    | none => simpa [writeGroups, hq] using ih h
    | some gIdx =>
      simp only [writeGroups, List.foldl_cons, hq]
      exact ih (schedDims_set3 _ _ _ _ h)

theorem get3_writeGroups {inst : ProblemInstance} {gids : List Int}
    {d t : Nat} {v : Int} {g : Sched}
    (hdims : schedDims inst.groups.length g) (hd : d < 5) (ht : t < 6)
    (x y z : Nat) :
    get3 (writeGroups inst gids d t v g) x y z =
      if (∃ gid ∈ gids, groupIndexQ inst gid = some x) ∧ y = d ∧ z = t then v
      else get3 g x y z := by
  induction gids generalizing g with
  | nil => simp [writeGroups]
  | cons gid rest ih =>
    cases hq : groupIndexQ inst gid with
    | none =>
      have step : writeGroups inst (gid :: rest) d t v g
          = writeGroups inst rest d t v g := by
        simp [writeGroups, hq]
      rw [step, ih hdims]
      by_cases hcr : (∃ gid' ∈ rest, groupIndexQ inst gid' = some x) ∧ y = d ∧ z = t
      · rw [if_pos hcr, if_pos ⟨⟨hcr.1.choose,
          List.mem_cons_of_mem _ hcr.1.choose_spec.1, hcr.1.choose_spec.2⟩, hcr.2⟩]
      · have hnc : ¬((∃ gid' ∈ gid :: rest, groupIndexQ inst gid' = some x)
            ∧ y = d ∧ z = t) := by
          rintro ⟨⟨gid', hmem, hq'⟩, hyz⟩
          rcases List.mem_cons.mp hmem with rfl | hmem'
          · rw [hq] at hq'; simp at hq'
          · exact hcr ⟨⟨gid', hmem', hq'⟩, hyz⟩
        rw [if_neg hcr, if_neg hnc]
    | some gIdx =>
      have step : writeGroups inst (gid :: rest) d t v g
          = writeGroups inst rest d t v (set3 g gIdx d t v) := by
        simp [writeGroups, hq]
      have hgi : gIdx < g.length := by
        rw [hdims.1]; exact idxOfPred_lt_length hq
      rw [step, ih (schedDims_set3 _ _ _ _ hdims)]
      by_cases hr : (∃ gid' ∈ rest, groupIndexQ inst gid' = some x) ∧ y = d ∧ z = t
      · rw [if_pos hr, if_pos ⟨⟨hr.1.choose, List.mem_cons_of_mem _ hr.1.choose_spec.1,
          hr.1.choose_spec.2⟩, hr.2⟩]
      · rw [if_neg hr]
        by_cases hx : x = gIdx ∧ y = d ∧ z = t
        · obtain ⟨rfl, rfl, rfl⟩ := hx
          rw [get3_set3_self v hgi
              (by rw [(hdims.2 _ (getD_mem [] hgi)).1]; omega)
              (by rw [(hdims.2 _ (getD_mem [] hgi)).2 _ (getD_mem [] (by
                    rw [(hdims.2 _ (getD_mem [] hgi)).1]; omega))]; omega)]
          rw [if_pos ⟨⟨gid, List.mem_cons_self _ _, hq⟩, rfl, rfl⟩]
        · rw [get3_set3_ne v hx]
          have hnc : ¬((∃ gid' ∈ gid :: rest, groupIndexQ inst gid' = some x)
              ∧ y = d ∧ z = t) := by
            rintro ⟨⟨gid', hmem, hq'⟩, rfl, rfl⟩
            rcases List.mem_cons.mp hmem with rfl | hmem'
            · rw [hq] at hq'
              exact hx ⟨(Option.some.inj hq').symm, rfl, rfl⟩
            · exact hr ⟨⟨gid', hmem', hq'⟩, rfl, rfl⟩
          rw [if_neg hnc]

theorem writeGroups_clear {inst : ProblemInstance} {gids : List Int}
    {d t : Nat} {v : Int} {G : Sched}
    (hdims : schedDims inst.groups.length G) (hd : d < 5) (ht : t < 6)
    (hfree : ∀ gid ∈ gids, ∃ gIdx, groupIndexQ inst gid = some gIdx ∧
      get3 G gIdx d t = kNone) :
    writeGroups inst gids d t kNone (writeGroups inst gids d t v G) = G := by
  refine sched_ext (schedDims_writeGroups (schedDims_writeGroups hdims)) hdims ?_
  intro x y z
  rw [get3_writeGroups (schedDims_writeGroups hdims) hd ht,
      get3_writeGroups hdims hd ht]
  by_cases hc : (∃ gid ∈ gids, groupIndexQ inst gid = some x) ∧ y = d ∧ z = t
  · rw [if_pos hc]
    obtain ⟨⟨gid, hmem, hq⟩, rfl, rfl⟩ := hc
    obtain ⟨gIdx, hq', hfree'⟩ := hfree gid hmem
    rw [hq] at hq'
    have hgx : gIdx = x := by simpa using hq'.symm
    subst hgx
    exact hfree'.symm
  · rw [if_neg hc, if_neg hc]

/-! ### place / undo lemmas -/

/-- The state committed by a successful placeCore, written out explicitly. -/
def commitState (inst : ProblemInstance) (act : Activity) (d t r pIdx : Nat)
    (σ : TimetableState) : TimetableState :=
  { roomSchedule := set3 σ.roomSchedule r d t act.id,
    profSchedule := set3 σ.profSchedule pIdx d t act.id,
    groupSchedule := writeGroups inst act.groupIds d t act.id σ.groupSchedule,
    profHours := σ.profHours.set pIdx (σ.profHours.getD pIdx 0 + 2) }

theorem placeCore_true_elim {inst : ProblemInstance} {act : Activity}
    {d t r : Nat} {σ σ' : TimetableState}
    (h : placeCore inst act d t r σ = (true, σ')) :
    ∃ pIdx, profIndexQ inst act.profId = some pIdx ∧
      checkRoomFree σ r d t = true ∧
      checkGroupsFree inst σ act d t = true ∧
      checkProfFree inst σ act d t = true ∧
      checkTravelTimes inst σ act d t r = true ∧
      σ' = commitState inst act d t r pIdx σ := by
  unfold placeCore at h
  cases hp : profIndexQ inst act.profId with
  | none => rw [hp] at h; simp at h
  | some pIdx =>
    rw [hp] at h
    refine ⟨pIdx, rfl, ?_⟩
    cases hc1 : checkRoomFree σ r d t with
    | false => rw [hc1] at h; simp at h
    | true =>
      rw [hc1] at h
      cases hc2 : checkGroupsFree inst σ act d t with
      | false => rw [hc2] at h; simp at h
      | true =>
        rw [hc2] at h
        cases hc3 : checkProfFree inst σ act d t with
        | false => rw [hc3] at h; simp [checkCourseAllGroupsFree] at h
        | true =>
          rw [hc3] at h
          cases hc4 : checkTravelTimes inst σ act d t r with
          | false => rw [hc4] at h; simp [checkCourseAllGroupsFree] at h
          | true =>
            rw [hc4] at h
            simp only [checkCourseAllGroupsFree, Bool.not_true, Bool.and_false,
              Bool.false_eq_true, if_false, if_true, Bool.not_false] at h
            cases hc5 : checkProfWorkloadLocal
                { σ with profHours :=
                    σ.profHours.set pIdx (σ.profHours.getD pIdx 0 + 2) } pIdx with
            | false => rw [hc5] at h; simp at h
            | true =>
              rw [hc5] at h
              simp only [Bool.not_true, Bool.false_eq_true, if_false,
                Prod.mk.injEq, true_and] at h
              refine ⟨rfl, rfl, rfl, rfl, ?_⟩
              rw [← h]
              rfl

theorem placeCore_false_snd {inst : ProblemInstance} {act : Activity}
    {d t r : Nat} {σ : TimetableState}
    (h : (placeCore inst act d t r σ).1 = false) :
    (placeCore inst act d t r σ).2 = σ := by
  cases hp : profIndexQ inst act.profId with
  | none => unfold placeCore; rw [hp]
  | some pIdx =>
    unfold placeCore at h ⊢
    rw [hp] at h ⊢
    rcases Bool.eq_false_or_eq_true (checkRoomFree σ r d t) with hc1 | hc1
    case inr => simp [hc1]
    rcases Bool.eq_false_or_eq_true (checkGroupsFree inst σ act d t) with hc2 | hc2
    case inr => simp [hc1, hc2]
    rcases Bool.eq_false_or_eq_true (checkProfFree inst σ act d t) with hc3 | hc3
    case inr => simp [hc1, hc2, hc3, checkCourseAllGroupsFree]
    rcases Bool.eq_false_or_eq_true (checkTravelTimes inst σ act d t r) with hc4 | hc4
    case inr => simp [hc1, hc2, hc3, hc4, checkCourseAllGroupsFree]
    rcases Bool.eq_false_or_eq_true (checkProfWorkloadLocal
        { σ with profHours :=
            σ.profHours.set pIdx (σ.profHours.getD pIdx 0 + 2) } pIdx) with hc5 | hc5
    · simp only [hc1, hc2, hc3, hc4, hc5, checkCourseAllGroupsFree, Bool.not_true,
        Bool.not_false, Bool.and_false, Bool.false_eq_true, if_false, if_true] at h
      simp at h
    · simp only [hc1, hc2, hc3, hc4, hc5, checkCourseAllGroupsFree, Bool.not_true,
        Bool.not_false, Bool.and_false, Bool.false_eq_true, if_false, if_true]
      show TimetableState.mk _ _ _ _ = σ
      rcases Nat.lt_or_ge pIdx σ.profHours.length with hlt | hge
      · have hget : (σ.profHours.set pIdx (σ.profHours.getD pIdx 0 + 2)).getD pIdx 0
            = σ.profHours.getD pIdx 0 + 2 := getD_set_self _ _ hlt
        rw [hget, List.set_set]
        have harith : σ.profHours.getD pIdx 0 + 2 - 2 = σ.profHours.getD pIdx 0 := by
          omega
        rw [harith, set_getD_self]
      · rw [List.set_eq_of_length_le hge, List.set_eq_of_length_le
          (by simpa using hge)]

theorem place_true_elim {inst : ProblemInstance} {act : Activity}
    {day slot roomIndex : Int} {σ σ' : TimetableState}
    (h : place inst act day slot roomIndex σ = (true, σ')) :
    0 ≤ day ∧ day < DAYS ∧ 0 ≤ slot ∧ slot < SLOTS_PER_DAY ∧
    0 ≤ roomIndex ∧ roomIndex < (inst.rooms.length : Int) ∧
    placeCore inst act day.toNat slot.toNat roomIndex.toNat σ = (true, σ') := by
  unfold place at h
  by_cases h1 : day < 0 ∨ DAYS ≤ day ∨ slot < 0 ∨ SLOTS_PER_DAY ≤ slot
  · rw [if_pos h1] at h; simp at h
  · rw [if_neg h1] at h
    by_cases h2 : roomIndex < 0 ∨ (inst.rooms.length : Int) ≤ roomIndex
    · rw [if_pos h2] at h; simp at h
    · rw [if_neg h2] at h
      push_neg at h1 h2
      exact ⟨h1.1, h1.2.1, h1.2.2.1, h1.2.2.2, h2.1, h2.2, h⟩

theorem place_false_snd {inst : ProblemInstance} {act : Activity}
    {day slot roomIndex : Int} {σ : TimetableState}
    (h : (place inst act day slot roomIndex σ).1 = false) :
    (place inst act day slot roomIndex σ).2 = σ := by
  unfold place at h ⊢
  by_cases h1 : day < 0 ∨ DAYS ≤ day ∨ slot < 0 ∨ SLOTS_PER_DAY ≤ slot
  · rw [if_pos h1]
  · rw [if_neg h1] at h ⊢
    by_cases h2 : roomIndex < 0 ∨ (inst.rooms.length : Int) ≤ roomIndex
    · rw [if_pos h2]
    · rw [if_neg h2] at h ⊢
      exact placeCore_false_snd h

theorem WF_mkState (inst : ProblemInstance) : WF inst (mkState inst) := by
  refine ⟨?_, ?_, ?_, by simp [mkState]⟩ <;>
  · refine ⟨by simp [mkState], ?_⟩
    intro g hg
    simp only [mkState] at hg
    rw [List.eq_of_mem_replicate hg]
    refine ⟨by simp, ?_⟩
    intro r hr
    rw [List.eq_of_mem_replicate hr]
    simp

theorem WF_commitState {inst : ProblemInstance} {act : Activity}
    {d t r pIdx : Nat} {σ : TimetableState} (hWF : WF inst σ) :
    WF inst (commitState inst act d t r pIdx σ) := by
  obtain ⟨w1, w2, w3, w4⟩ := hWF
  exact ⟨schedDims_set3 _ _ _ _ w1, schedDims_set3 _ _ _ _ w2,
    schedDims_writeGroups w3, by simp [commitState, w4]⟩

theorem WF_place {inst : ProblemInstance} {act : Activity}
    {day slot roomIndex : Int} {σ σ' : TimetableState} (hWF : WF inst σ)
    (h : place inst act day slot roomIndex σ = (true, σ')) : WF inst σ' := by
  obtain ⟨_, _, _, _, _, _, hcore⟩ := place_true_elim h
  obtain ⟨pIdx, _, _, _, _, _, rfl⟩ := placeCore_true_elim hcore
  exact WF_commitState hWF

/-- undo, written out explicitly, when the professor id resolves and the
    room index is within the schedule bounds. -/
theorem undo_explicit {inst : ProblemInstance} {act : Activity}
    {day slot roomIndex : Int} {ρ : TimetableState} {pIdx : Nat}
    (hp : profIndexQ inst act.profId = some pIdx)
    (hguard : 0 ≤ roomIndex ∧ roomIndex < (ρ.roomSchedule.length : Int)) :
    undo inst act day slot roomIndex ρ =
      { roomSchedule := set3 ρ.roomSchedule roomIndex.toNat day.toNat slot.toNat kNone,
        profSchedule := set3 ρ.profSchedule pIdx day.toNat slot.toNat kNone,
        groupSchedule := writeGroups inst act.groupIds day.toNat slot.toNat kNone ρ.groupSchedule,
        profHours := ρ.profHours.set pIdx (ρ.profHours.getD pIdx 0 - 2) } := by
  unfold undo
  rw [hp]
  simp only [if_pos hguard]

theorem checkRoomFree_eq {σ : TimetableState} {r d t : Nat}
    (h : checkRoomFree σ r d t = true) : get3 σ.roomSchedule r d t = kNone := by
  simpa [checkRoomFree] using h

theorem checkProfFree_eq {inst : ProblemInstance} {σ : TimetableState}
    {act : Activity} {d t pIdx : Nat}
    (hp : profIndexQ inst act.profId = some pIdx)
    (h : checkProfFree inst σ act d t = true) :
    get3 σ.profSchedule pIdx d t = kNone := by
  unfold checkProfFree at h
  rw [hp] at h
  simpa using h

theorem checkGroupsFree_elim {inst : ProblemInstance} {σ : TimetableState}
    {act : Activity} {d t : Nat}
    (h : checkGroupsFree inst σ act d t = true) :
    ∀ gid ∈ act.groupIds, ∃ gIdx, groupIndexQ inst gid = some gIdx ∧
      get3 σ.groupSchedule gIdx d t = kNone := by
  intro gid hmem
  have := List.all_eq_true.mp h gid hmem
  cases hq : groupIndexQ inst gid with
  | none => rw [hq] at this; simp at this
  | some gIdx =>
    rw [hq] at this
    exact ⟨gIdx, rfl, by simpa using this⟩

/-- Undoing a successful place restores the exact previous state
    (the key step behind the Conservation property). -/
theorem place_undo_cancel {inst : ProblemInstance} {act : Activity}
    {day slot roomIndex : Int} {σ σ' : TimetableState} (hWF : WF inst σ)
    (h : place inst act day slot roomIndex σ = (true, σ')) :
    undo inst act day slot roomIndex σ' = σ := by
  obtain ⟨hd0, hd5, ht0, ht6, hr0, hrlen, hcore⟩ := place_true_elim h
  obtain ⟨pIdx, hp, hroom, hgrp, hprof, _, rfl⟩ := placeCore_true_elim hcore
  obtain ⟨w1, w2, w3, w4⟩ := hWF
  have hdnat : day.toNat < 5 := by unfold DAYS at hd5; omega
  have htnat : slot.toNat < 6 := by unfold SLOTS_PER_DAY at ht6; omega
  have hplen : pIdx < σ.profHours.length := by
    rw [w4]; exact idxOfPred_lt_length hp
  have hguard : 0 ≤ roomIndex ∧
      roomIndex < ((commitState inst act day.toNat slot.toNat roomIndex.toNat pIdx σ).roomSchedule.length : Int) := by
    refine ⟨hr0, ?_⟩
    simp only [commitState, length_set3]
    rw [w1.1]
    exact hrlen
  rw [undo_explicit hp hguard]
  simp only [commitState]
  have hhours : ((σ.profHours.set pIdx (σ.profHours.getD pIdx 0 + 2)).set pIdx
      ((σ.profHours.set pIdx (σ.profHours.getD pIdx 0 + 2)).getD pIdx 0 - 2))
      = σ.profHours := by
    rw [getD_set_self _ _ hplen, List.set_set]
    have harith : σ.profHours.getD pIdx 0 + 2 - 2 = σ.profHours.getD pIdx 0 := by omega
    rw [harith, set_getD_self]
  have hroomS : set3 (set3 σ.roomSchedule roomIndex.toNat day.toNat slot.toNat act.id)
      roomIndex.toNat day.toNat slot.toNat kNone = σ.roomSchedule := by
    rw [set3_set3_same]
    exact set3_cancel (checkRoomFree_eq hroom)
  have hprofS : set3 (set3 σ.profSchedule pIdx day.toNat slot.toNat act.id)
      pIdx day.toNat slot.toNat kNone = σ.profSchedule := by
    rw [set3_set3_same]
    exact set3_cancel (checkProfFree_eq hp hprof)
  have hgrpS : writeGroups inst act.groupIds day.toNat slot.toNat kNone
      (writeGroups inst act.groupIds day.toNat slot.toNat act.id σ.groupSchedule)
      = σ.groupSchedule :=
    writeGroups_clear w3 hdnat htnat (checkGroupsFree_elim hgrp)
  rw [hhours, hroomS, hprofS, hgrpS]

/-! ### Sequences of place / undo calls -/

/-- Arguments of one place (or undo) call. -/
structure PlaceCall where
  act : Activity
  day : Int
  slot : Int
  roomIndex : Int
deriving DecidableEq, Repr

/-- Run a sequence of place calls, requiring every one to succeed. -/
def placeSeq (inst : ProblemInstance) : List PlaceCall → TimetableState → Option TimetableState
  | [], σ => some σ
  | c :: cs, σ =>
    match place inst c.act c.day c.slot c.roomIndex σ with
    | (true, σ') => placeSeq inst cs σ'
    | (false, _) => none

/-- Run a sequence of undo calls. -/
def undoSeq (inst : ProblemInstance) (cs : List PlaceCall) (σ : TimetableState) :
    TimetableState :=
  cs.foldl (fun σ c => undo inst c.act c.day c.slot c.roomIndex σ) σ

theorem undoSeq_append (inst : ProblemInstance) (cs ds : List PlaceCall)
    (σ : TimetableState) :
    undoSeq inst (cs ++ ds) σ = undoSeq inst ds (undoSeq inst cs σ) := by
  simp [undoSeq, List.foldl_append]

/-- Claim C1 (Conservation): for every problem instance, every well-formed
    state and every sequence of place calls that all succeed, running undo
    with the same arguments in exact reverse order restores the state that
    held before the sequence began — all three occupancy grids and the
    per-professor hours vector included. -/
theorem C1_conservation {inst : ProblemInstance} {σ σ' : TimetableState}
    {cs : List PlaceCall} (hWF : WF inst σ)
    (h : placeSeq inst cs σ = some σ') :
    undoSeq inst cs.reverse σ' = σ := by
  induction cs generalizing σ with
  | nil =>
    simp only [placeSeq, Option.some.injEq] at h
    rw [← h]
    rfl
  | cons c cs ih =>
    unfold placeSeq at h
    cases hpl : place inst c.act c.day c.slot c.roomIndex σ with
    | mk b σ1 =>
      rw [hpl] at h
      cases b with
      | false => simp at h
      | true =>
        simp only at h
        have hWF1 : WF inst σ1 := WF_place hWF hpl
        have ihres := ih hWF1 h
        rw [List.reverse_cons, undoSeq_append, ihres]
        show undo inst c.act c.day c.slot c.roomIndex σ1 = σ
        exact place_undo_cancel hWF hpl

/-- Claim C2 (Failure atomicity): whenever place returns false, the state
    it returns is exactly the state it was given — every check before the
    commit is side-effect-free except the tentative professor-hours
    increment, which is reverted before returning false. -/
theorem C2_failure_atomicity (inst : ProblemInstance) (act : Activity)
    (day slot roomIndex : Int) (σ : TimetableState)
    (h : (place inst act day slot roomIndex σ).1 = false) :
    place inst act day slot roomIndex σ = (false, σ) := by
  have hsnd := place_false_snd h
  cases hres : place inst act day slot roomIndex σ with
  | mk b σ' =>
    rw [hres] at h hsnd
    simp only at h hsnd
    rw [h, hsnd]

/-! ### A small concrete demo instance, used by the witnesses -/

/-- Two buildings 15 minutes apart, one COURSE room in building 0, one
    SEMINAR room in building 1, two professors, two groups. -/
def demoInst : ProblemInstance :=
  { buildings := [⟨0⟩, ⟨1⟩],
    rooms := [⟨0, 0, 30, RoomType.COURSE⟩, ⟨1, 1, 30, RoomType.SEMINAR⟩],
    professors := [⟨0⟩, ⟨1⟩],
    groups := [⟨0⟩, ⟨1⟩],
    activities := [⟨0, 0, ActivityType.COURSE, 0, [0]⟩,
                   ⟨1, 0, ActivityType.SEMINAR, 1, [1]⟩],
    travelTime := [[0, 15], [15, 0]] }

/-- The two calls used by the conservation witness. -/
def demoCalls : List PlaceCall :=
  [⟨⟨0, 0, ActivityType.COURSE, 0, [0]⟩, 0, 0, 0⟩,
   ⟨⟨1, 0, ActivityType.SEMINAR, 1, [1]⟩, 0, 3, 1⟩]

/-- The state after running demoCalls from the empty state. -/
def demoPlaced : TimetableState :=
  (placeSeq demoInst demoCalls (mkState demoInst)).getD (mkState demoInst)

theorem C1_conservation_witness :
    WF demoInst (mkState demoInst) ∧
    placeSeq demoInst demoCalls (mkState demoInst) = some demoPlaced ∧
    undoSeq demoInst demoCalls.reverse demoPlaced = mkState demoInst :=
  ⟨by decide, by decide, C1_conservation (by decide) (by decide)⟩

theorem C2_failure_atomicity_witness :
    (place demoInst ⟨0, 0, ActivityType.COURSE, 0, [0]⟩ 0 0 5
        (mkState demoInst)).1 = false ∧
    place demoInst ⟨0, 0, ActivityType.COURSE, 0, [0]⟩ 0 0 5
        (mkState demoInst) = (false, mkState demoInst) :=
  ⟨by decide, C2_failure_atomicity _ _ _ _ _ _ (by decide)⟩

/-! ### The solvers' candidate enumeration and search

The backtracking loop mutates one TimetableState and always calls undo
right after the recursive call returns.  By `place_undo_cancel` (success)
and `place_false_snd` (failure) the state seen by the next candidate is
exactly the state before the attempt, so the search is modelled by the
pure enumeration `enumC` below, which threads the state functionally. -/

/-- The three room-type compatibility checks in the candidate loop
    (sequential_solver.cpp lines 118-124). -/
def roomTypeOk (a : ActivityType) (r : RoomType) : Bool :=
  if a == ActivityType.COURSE && !(r == RoomType.COURSE) then false
  else if a == ActivityType.SEMINAR && !(r == RoomType.SEMINAR) then false
  else if a == ActivityType.LAB && !(r == RoomType.LAB) then false
  else true

/-- The (day, slot, roomIndex) enumeration of backtrack with the
    room-type filter applied. -/
def candTriples (inst : ProblemInstance) (act : Activity) : List (Nat × Nat × Nat) :=
  (List.range 5).flatMap (fun d =>
    (List.range 6).flatMap (fun s =>
      (List.range inst.rooms.length).filterMap (fun r =>
        if roomTypeOk act.type (inst.rooms.getD r default).type then some (d, s, r)
        else none)))

/-- All complete hard-constraint-feasible assignments reachable by the
    backtracking search from the given state, in DFS order
    (SequentialBacktrackingSolver::backtrack without the solution cap). -/
def enumC (inst : ProblemInstance) :
    List Activity → TimetableState → List Placement → List (List Placement)
  | [], σ, pl => if checkFinalWorkloadBounds inst σ then [pl] else []
  | act :: rest, σ, pl =>
    (candTriples inst act).flatMap (fun c =>
      match place inst act (Int.ofNat c.1) (Int.ofNat c.2.1) (Int.ofNat c.2.2) σ with
      | (true, σ') => enumC inst rest σ'
          (pl.set act.id.toNat ⟨act.id, Int.ofNat c.1, Int.ofNat c.2.1, Int.ofNat c.2.2⟩)
      | (false, _) => [])

/-- ThreadedBacktrackingSolver::buildFrontierDFS: partial states after
    `fuel` more levels of the same DFS (fuel = frontierDepth - depth). -/
def frontierDFS (inst : ProblemInstance) :
    Nat → List Activity → TimetableState → List Placement →
    List (TimetableState × List Placement × List Activity)
  | 0, rest, σ, pl => [(σ, pl, rest)]
  | _ + 1, [], σ, pl => [(σ, pl, [])]
  | k + 1, act :: rest, σ, pl =>
    (candTriples inst act).flatMap (fun c =>
      match place inst act (Int.ofNat c.1) (Int.ofNat c.2.1) (Int.ofNat c.2.2) σ with
      | (true, σ') => frontierDFS inst k rest σ'
          (pl.set act.id.toNat ⟨act.id, Int.ofNat c.1, Int.ofNat c.2.1, Int.ofNat c.2.2⟩)
      | (false, _) => [])

/-- ThreadedBacktrackingSolver::backtrackFromPartial: finish the DFS from
    one claimed frontier node (without the solution cap). -/
def completeFrom (inst : ProblemInstance)
    (node : TimetableState × List Placement × List Activity) :
    List (List Placement) :=
  enumC inst node.2.2 node.1 node.2.1

/-! ### Scoring (computeScore, sequential_solver.cpp lines 150-343;
the threaded copy is textually identical) -/

/-- Boolean occupancy cube indexed [resource][day][slot]. -/
abbrev BCube := List (List (List Bool))

def getB (s : BCube) (i d t : Nat) : Bool := ((s.getD i []).getD d []).getD t false

def setB (s : BCube) (i d t : Nat) (v : Bool) : BCube :=
  s.set i ((s.getD i []).set d (((s.getD i []).getD d []).set t v))

def mkBCube (n : Nat) : BCube :=
  List.replicate n (List.replicate 5 (List.replicate 6 false))

/-- Late-slot penalty: +1 per assigned placement in slot 4 or 5. -/
def lateSlotPenalty (pls : List Placement) : Nat :=
  pls.countP (fun p => !(p.activityId < 0) && (4 ≤ p.slot))

/-- The inner loop of the group occupancy fill, marking one activity's
    groups at (d, t). -/
def markGroups (inst : ProblemInstance) (gids : List Int) (d t : Nat)
    (g : BCube) : BCube :=
  gids.foldl (fun acc gid =>
    match groupIndexQ inst gid with
    | some gIdx => setB acc gIdx d t true
    | none => acc) g

/-- groupDaySlots occupancy fill (lines 174-190). -/
def fillGroupOcc (inst : ProblemInstance) (pls : List Placement) : BCube :=
  pls.foldl (fun acc p =>
    if p.activityId < (0 : Int) then acc
    else markGroups inst (inst.activities.getD p.activityId.toNat default).groupIds
      p.day.toNat p.slot.toNat acc)
    (mkBCube inst.groups.length)

/-- profDaySlots occupancy fill (lines 228-242). -/
def fillProfOcc (inst : ProblemInstance) (pls : List Placement) : BCube :=
  pls.foldl (fun acc p =>
    if p.activityId < (0 : Int) then acc
    else
      match profIndexQ inst (inst.activities.getD p.activityId.toNat default).profId with
      | some pIdx => setB acc pIdx p.day.toNat p.slot.toNat true
      | none => acc)
    (mkBCube inst.professors.length)

/-- One step of the first/last scan (lines 195-201): `first` is set once,
    `last` follows every occupied slot. -/
def flStep (row : Nat → Bool) (acc : Option (Nat × Nat)) (s : Nat) :
    Option (Nat × Nat) :=
  if row s then
    match acc with
    | none => some (s, s)
    | some (f, _) => some (f, s)
  else acc

/-- The first/last scan over one day's six slots. -/
def firstLastOcc (row : Nat → Bool) : Option (Nat × Nat) :=
  (List.range 6).foldl (flStep row) none

/-- Idle slots counted between first and last occupied slot (lines 204-215). -/
def gapCount (row : Nat → Bool) : Nat :=
  match firstLastOcc row with
  | none => 0
  | some (f, l) =>
      if f = l then 0
      else (List.range' f (l + 1 - f)).countP (fun s => !row s)

/-- Gap penalty summed over every (group, day). -/
def groupGapPenalty (inst : ProblemInstance) (pls : List Placement) : Nat :=
  ((List.range inst.groups.length).map (fun g =>
    ((List.range 5).map (fun d =>
      gapCount (fun s => getB (fillGroupOcc inst pls) g d s))).sum)).sum

/-- Gap penalty summed over every (professor, day). -/
def profGapPenalty (inst : ProblemInstance) (pls : List Placement) : Nat :=
  ((List.range inst.professors.length).map (fun pr =>
    ((List.range 5).map (fun d =>
      gapCount (fun s => getB (fillProfOcc inst pls) pr d s))).sum)).sum

/-- The roomIndexToBuildingIndex lambda inside computeScore (lines 272-276):
    bounds-checks only the room index, not the building id. -/
def roomToBuildingScore (inst : ProblemInstance) (roomIndex : Int) : Int :=
  if roomIndex < 0 ∨ (inst.rooms.length : Int) ≤ roomIndex then -1
  else (inst.rooms.getD roomIndex.toNat default).buildingId

/-- The usedBuilding boolean vector for one resource and day
    (lines 282-300 / 317-330), `attends` abstracting the resource test. -/
def usedBuildings (inst : ProblemInstance) (pls : List Placement)
    (attends : Placement → Bool) (d : Nat) : List Bool :=
  pls.foldl (fun used p =>
    if p.activityId < (0 : Int) then used
    else if p.day ≠ (d : Int) then used
    else if !attends p then used
    else
      if 0 ≤ roomToBuildingScore inst p.roomIndex ∧
          roomToBuildingScore inst p.roomIndex < (used.length : Int) then
        used.set (roomToBuildingScore inst p.roomIndex).toNat true
      else used)
    (List.replicate inst.buildings.length false)

def countTrue (l : List Bool) : Nat := l.countP (fun b => b)

/-- Each building beyond the second adds one penalty point. -/
def extraBuildings (count : Nat) : Nat := if 2 < count then count - 2 else 0

def groupBuildingPenalty (inst : ProblemInstance) (pls : List Placement) : Nat :=
  ((List.range inst.groups.length).map (fun g =>
    ((List.range 5).map (fun d =>
      extraBuildings (countTrue (usedBuildings inst pls
        (fun p => (inst.activities.getD p.activityId.toNat default).groupIds.contains
          (inst.groups.getD g default).id) d)))).sum)).sum

def profBuildingPenalty (inst : ProblemInstance) (pls : List Placement) : Nat :=
  ((List.range inst.professors.length).map (fun pr =>
    ((List.range 5).map (fun d =>
      extraBuildings (countTrue (usedBuildings inst pls
        (fun p => (inst.activities.getD p.activityId.toNat default).profId ==
          (inst.professors.getD pr default).id) d)))).sum)).sum

/-- SequentialBacktrackingSolver::computeScore. -/
def computeScore (inst : ProblemInstance) (pls : List Placement) : Int :=
  (lateSlotPenalty pls : Int) + (groupGapPenalty inst pls : Int)
    + (profGapPenalty inst pls : Int) + (groupBuildingPenalty inst pls : Int)
    + (profBuildingPenalty inst pls : Int)

/-! ### Top-level solve -/

/-- The comparator passed to std::sort in orderActivities. -/
def actLess (a b : Activity) : Bool :=
  if a.type != b.type then a.type == ActivityType.COURSE
  else b.groupIds.length < a.groupIds.length

/-- Insert into a sorted list (std::sort's exact permutation among ties is
    unspecified; a stable insertion sort fixes one comparator-consistent
    order). -/
def insertByLe {α : Type} (le : α → α → Bool) (a : α) : List α → List α
  | [] => [a]
  | b :: t => if le a b then a :: b :: t else b :: insertByLe le a t

/-- Comparator-consistent sort used to model std::sort. -/
def sortByLe {α : Type} (le : α → α → Bool) : List α → List α
  | [] => []
  | a :: t => insertByLe le a (sortByLe le t)

theorem mem_insertByLe {α : Type} {le : α → α → Bool} {a x : α} {l : List α} :
    x ∈ insertByLe le a l ↔ x = a ∨ x ∈ l := by
  induction l with
  | nil => simp [insertByLe]
  | cons b t ih =>
    unfold insertByLe
    by_cases hle : le a b = true
    · rw [if_pos hle]
      simp
    · rw [if_neg hle]
      simp only [List.mem_cons, ih]
      tauto

theorem mem_sortByLe {α : Type} {le : α → α → Bool} {x : α} {l : List α} :
    x ∈ sortByLe le l ↔ x ∈ l := by
  induction l with
  | nil => simp [sortByLe]
  | cons a t ih =>
    unfold sortByLe
    rw [mem_insertByLe]
    simp [ih]

/-- The heuristic activity order (std::sort with the actLess comparator). -/
def orderActs (inst : ProblemInstance) : List Activity :=
  sortByLe (fun a b => !(actLess b a)) inst.activities

/-- The all-unassigned placements array (solve lines 44-50). -/
def initPlacements (inst : ProblemInstance) : List Placement :=
  List.replicate inst.activities.length ⟨-1, 0, 0, 0⟩

/-- Best-solution tracking: strictly smaller score replaces, first found
    wins ties (backtrack lines 100-104). -/
def bestOf (inst : ProblemInstance) (outs : List (List Placement)) :
    Option TimetableSolution :=
  outs.foldl (fun best pl =>
    match best with
    | none => some ⟨pl, computeScore inst pl⟩
    | some b =>
        if computeScore inst pl < b.score then some ⟨pl, computeScore inst pl⟩
        else some b) none

/-- SequentialBacktrackingSolver::solve: the first maxSolutions complete
    feasible assignments are processed; none found means nullopt. -/
def solveSeq (maxSolutions : Nat) (inst : ProblemInstance) : Option TimetableSolution :=
  bestOf inst ((enumC inst (orderActs inst) (mkState inst) (initPlacements inst)).take
    maxSolutions)

/-- The complete feasible assignments explored by the threaded solver:
    frontier nodes built sequentially to the given depth, each then
    completed by DFS (each node is claimed by exactly one worker). -/
def threadedEnum (inst : ProblemInstance) (frontierDepth : Nat) :
    List (List Placement) :=
  (frontierDFS inst frontierDepth (orderActs inst) (mkState inst)
    (initPlacements inst)).flatMap (completeFrom inst)

/-- The sequential solver's full enumeration. -/
def seqEnum (inst : ProblemInstance) : List (List Placement) :=
  enumC inst (orderActs inst) (mkState inst) (initPlacements inst)

/-- Completing every frontier node in order yields exactly the sequential
    enumeration, for every frontier depth. -/
theorem frontier_complete (inst : ProblemInstance) :
    ∀ (k : Nat) (acts : List Activity) (σ : TimetableState) (pl : List Placement),
    (frontierDFS inst k acts σ pl).flatMap (completeFrom inst) = enumC inst acts σ pl := by
  intro k
  induction k with
  | zero =>
    intro acts σ pl
    simp [frontierDFS, completeFrom]
  | succ k ih =>
    intro acts σ pl
    cases acts with
    | nil => simp [frontierDFS, completeFrom, enumC]
    | cons act rest =>
      show ((candTriples inst act).flatMap _).flatMap (completeFrom inst) = _
      rw [List.flatMap_assoc]
      unfold enumC
      congr 1
      funext c
      cases hpl : place inst act (Int.ofNat c.1) (Int.ofNat c.2.1) (Int.ofNat c.2.2) σ with
      | mk b σ' =>
        cases b with
        | true => simpa using ih rest σ' _
        | false => simp

/-- Claim C7 (Parallel/sequential equivalence): for every problem instance
    and every frontier depth, the list of hard-constraint-feasible complete
    assignments explored by the threaded solver (sequential frontier
    construction followed by depth-first completion of each frontier node,
    each node claimed by exactly one worker) is exactly the sequential
    solver's enumeration, and the minimum achievable score agrees.  The
    thread budget does not appear: any number of workers ≥ 1 merely
    partitions the same frontier list. -/
theorem C7_parallel_sequential_equiv (inst : ProblemInstance) (frontierDepth : Nat) :
    threadedEnum inst frontierDepth = seqEnum inst ∧
    ((threadedEnum inst frontierDepth).map (computeScore inst)).min? =
      ((seqEnum inst).map (computeScore inst)).min? := by
  have h := frontier_complete inst frontierDepth (orderActs inst) (mkState inst)
    (initPlacements inst)
  exact ⟨h, by rw [show threadedEnum inst frontierDepth = seqEnum inst from h]⟩

/-! ### Failure-propagation lemmas for place -/

theorem placeCore_fst_true_elim {inst : ProblemInstance} {act : Activity}
    {d t r : Nat} {σ : TimetableState}
    (h : (placeCore inst act d t r σ).1 = true) :
    ∃ pIdx, profIndexQ inst act.profId = some pIdx ∧
      checkRoomFree σ r d t = true ∧
      checkGroupsFree inst σ act d t = true ∧
      checkProfFree inst σ act d t = true ∧
      checkTravelTimes inst σ act d t r = true ∧
      (placeCore inst act d t r σ).2 = commitState inst act d t r pIdx σ := by
  have hpair : placeCore inst act d t r σ = (true, (placeCore inst act d t r σ).2) := by
    rw [← h]
  obtain ⟨pIdx, h1, h2, h3, h4, h5, h6⟩ := placeCore_true_elim hpair
  exact ⟨pIdx, h1, h2, h3, h4, h5, h6⟩

theorem placeCore_fst_false_of_prof {inst : ProblemInstance} {act : Activity}
    {d t r : Nat} {σ : TimetableState}
    (h : checkProfFree inst σ act d t = false) :
    (placeCore inst act d t r σ).1 = false := by
  rcases Bool.eq_false_or_eq_true (placeCore inst act d t r σ).1 with ht | hf
  case inr => exact hf
  · obtain ⟨_, _, _, _, hprof, _, _⟩ := placeCore_fst_true_elim ht
    rw [h] at hprof
    exact absurd hprof (by simp)

theorem placeCore_fst_false_of_groups {inst : ProblemInstance} {act : Activity}
    {d t r : Nat} {σ : TimetableState}
    (h : checkGroupsFree inst σ act d t = false) :
    (placeCore inst act d t r σ).1 = false := by
  rcases Bool.eq_false_or_eq_true (placeCore inst act d t r σ).1 with ht | hf
  case inr => exact hf
  · obtain ⟨_, _, _, hgrp, _, _, _⟩ := placeCore_fst_true_elim ht
    rw [h] at hgrp
    exact absurd hgrp (by simp)

theorem placeCore_fst_false_of_travel {inst : ProblemInstance} {act : Activity}
    {d t r : Nat} {σ : TimetableState}
    (h : checkTravelTimes inst σ act d t r = false) :
    (placeCore inst act d t r σ).1 = false := by
  rcases Bool.eq_false_or_eq_true (placeCore inst act d t r σ).1 with ht | hf
  case inr => exact hf
  · obtain ⟨_, _, _, _, _, htrav, _⟩ := placeCore_fst_true_elim ht
    rw [h] at htrav
    exact absurd htrav (by simp)

theorem placeCore_fst_false_of_noProf {inst : ProblemInstance} {act : Activity}
    {d t r : Nat} {σ : TimetableState}
    (h : profIndexQ inst act.profId = none) :
    placeCore inst act d t r σ = (false, σ) := by
  unfold placeCore
  rw [h]

/-- place never succeeds when the professor id is unknown. -/
theorem place_fst_false_of_noProf {inst : ProblemInstance} {act : Activity}
    (day slot roomIndex : Int) (σ : TimetableState)
    (h : profIndexQ inst act.profId = none) :
    (place inst act day slot roomIndex σ).1 = false := by
  unfold place
  by_cases h1 : day < 0 ∨ DAYS ≤ day ∨ slot < 0 ∨ SLOTS_PER_DAY ≤ slot
  · rw [if_pos h1]
  · rw [if_neg h1]
    by_cases h2 : roomIndex < 0 ∨ (inst.rooms.length : Int) ≤ roomIndex
    · rw [if_pos h2]
    · rw [if_neg h2, placeCore_fst_false_of_noProf h]

/-- place never succeeds when some attending group id is unknown. -/
theorem place_fst_false_of_noGroup {inst : ProblemInstance} {act : Activity}
    (day slot roomIndex : Int) (σ : TimetableState) {gid : Int}
    (hmem : gid ∈ act.groupIds) (h : groupIndexQ inst gid = none) :
    (place inst act day slot roomIndex σ).1 = false := by
  unfold place
  by_cases h1 : day < 0 ∨ DAYS ≤ day ∨ slot < 0 ∨ SLOTS_PER_DAY ≤ slot
  · rw [if_pos h1]
  · rw [if_neg h1]
    by_cases h2 : roomIndex < 0 ∨ (inst.rooms.length : Int) ≤ roomIndex
    · rw [if_pos h2]
    · rw [if_neg h2]
      refine placeCore_fst_false_of_groups ?_
      rcases Bool.eq_false_or_eq_true (checkGroupsFree inst σ act day.toNat slot.toNat)
        with ht | hf
      · have hcontra := List.all_eq_true.mp ht gid hmem
        rw [h] at hcontra
        exact absurd hcontra (by simp)
      · exact hf

/-- An activity whose professor id is unknown empties the whole search. -/
theorem enumC_nil_of_noProf {inst : ProblemInstance} {act : Activity}
    (h : profIndexQ inst act.profId = none) :
    ∀ (acts : List Activity) (σ : TimetableState) (pl : List Placement),
    act ∈ acts → enumC inst acts σ pl = [] := by
  intro acts
  induction acts with
  | nil => intro σ pl hmem; simp at hmem
  | cons a rest ih =>
    intro σ pl hmem
    unfold enumC
    refine List.flatMap_eq_nil_iff.mpr ?_
    intro c _
    rcases List.mem_cons.mp hmem with rfl | hmem'
    · cases hpl : place inst act (Int.ofNat c.1) (Int.ofNat c.2.1) (Int.ofNat c.2.2) σ with
      | mk b σ' =>
        have hfst : b = false := by
          have hh := @place_fst_false_of_noProf inst act
            (Int.ofNat c.1) (Int.ofNat c.2.1) (Int.ofNat c.2.2) σ h
          rw [hpl] at hh
          exact hh
        subst hfst
        simp [hpl]
    · cases hpl : place inst a (Int.ofNat c.1) (Int.ofNat c.2.1) (Int.ofNat c.2.2) σ with
      | mk b σ' =>
        cases b with
        | true => simpa using ih σ' _ hmem'
        | false => simp

/-! ### Travel-time failure lemmas -/

theorem prevSlotOk_false {inst : ProblemInstance} {σ : TimetableState}
    {sched : Sched} {eIdx d t : Nat} {bIdx : Int} {r' : Nat}
    (ht0 : 0 < t)
    (hcell : get3 sched eIdx d (t - 1) ≠ kNone)
    (hfind : findRoomOf σ (get3 sched eIdx d (t - 1)) d (t - 1) = some r')
    (hbad : roomToBuildingIndex inst (Int.ofNat r') < 0 ∨
      10 < travelAt inst (roomToBuildingIndex inst (Int.ofNat r')) bIdx) :
    prevSlotOk inst σ sched eIdx d t bIdx = false := by
  unfold prevSlotOk
  have hne : (get3 sched eIdx d (t - 1) != kNone) = true := by
    simpa using hcell
  rw [if_pos ht0, hne, if_pos rfl, hfind]
  show (if roomToBuildingIndex inst (Int.ofNat r') < 0 then false
    else (travelAt inst (roomToBuildingIndex inst (Int.ofNat r')) bIdx ≤ 10 : Bool)) = false
  by_cases hpb : roomToBuildingIndex inst (Int.ofNat r') < 0
  · rw [if_pos hpb]
  · rw [if_neg hpb]
    rcases hbad with hbad | hbad
    · exact absurd hbad hpb
    · have hk : ¬(travelAt inst (roomToBuildingIndex inst (Int.ofNat r')) bIdx ≤ 10) := by
        omega
      exact decide_eq_false hk

theorem nextSlotOk_false {inst : ProblemInstance} {σ : TimetableState}
    {sched : Sched} {eIdx d t : Nat} {bIdx : Int} {r' : Nat}
    (ht5 : t < 5)
    (hcell : get3 sched eIdx d (t + 1) ≠ kNone)
    (hfind : findRoomOf σ (get3 sched eIdx d (t + 1)) d (t + 1) = some r')
    (hbad : roomToBuildingIndex inst (Int.ofNat r') < 0 ∨
      10 < travelAt inst bIdx (roomToBuildingIndex inst (Int.ofNat r'))) :
    nextSlotOk inst σ sched eIdx d t bIdx = false := by
  unfold nextSlotOk
  have hne : (get3 sched eIdx d (t + 1) != kNone) = true := by
    simpa using hcell
  rw [if_pos ht5, hne, if_pos rfl, hfind]
  show (if roomToBuildingIndex inst (Int.ofNat r') < 0 then false
    else (travelAt inst bIdx (roomToBuildingIndex inst (Int.ofNat r')) ≤ 10 : Bool)) = false
  by_cases hpb : roomToBuildingIndex inst (Int.ofNat r') < 0
  · rw [if_pos hpb]
  · rw [if_neg hpb]
    rcases hbad with hbad | hbad
    · exact absurd hbad hpb
    · have hk : ¬(travelAt inst bIdx (roomToBuildingIndex inst (Int.ofNat r')) ≤ 10) := by
        omega
      exact decide_eq_false hk

theorem checkEntityTravel_false_prev {inst : ProblemInstance} {σ : TimetableState}
    {sched : Sched} {eIdx d t : Nat} {bIdx : Int} {r' : Nat}
    (ht0 : 0 < t)
    (hcell : get3 sched eIdx d (t - 1) ≠ kNone)
    (hfind : findRoomOf σ (get3 sched eIdx d (t - 1)) d (t - 1) = some r')
    (hbad : roomToBuildingIndex inst (Int.ofNat r') < 0 ∨
      10 < travelAt inst (roomToBuildingIndex inst (Int.ofNat r')) bIdx) :
    checkEntityTravel inst σ sched eIdx d t bIdx = false := by
  unfold checkEntityTravel
  rw [prevSlotOk_false ht0 hcell hfind hbad]
  simp

theorem checkEntityTravel_false_next {inst : ProblemInstance} {σ : TimetableState}
    {sched : Sched} {eIdx d t : Nat} {bIdx : Int} {r' : Nat}
    (ht5 : t < 5)
    (hcell : get3 sched eIdx d (t + 1) ≠ kNone)
    (hfind : findRoomOf σ (get3 sched eIdx d (t + 1)) d (t + 1) = some r')
    (hbad : roomToBuildingIndex inst (Int.ofNat r') < 0 ∨
      10 < travelAt inst bIdx (roomToBuildingIndex inst (Int.ofNat r'))) :
    checkEntityTravel inst σ sched eIdx d t bIdx = false := by
  unfold checkEntityTravel
  rw [nextSlotOk_false ht5 hcell hfind hbad]
  cases hpv : prevSlotOk inst σ sched eIdx d t bIdx <;> simp

theorem checkTravelTimes_false_of_badBuilding {inst : ProblemInstance}
    {σ : TimetableState} {act : Activity} {d t r : Nat}
    (h : roomToBuildingIndex inst (Int.ofNat r) < 0) :
    checkTravelTimes inst σ act d t r = false := by
  unfold checkTravelTimes
  rw [if_pos h]

theorem checkTravelTimes_false_of_prof {inst : ProblemInstance}
    {σ : TimetableState} {act : Activity} {d t r pIdx : Nat}
    (hp : profIndexQ inst act.profId = some pIdx)
    (hent : checkEntityTravel inst σ σ.profSchedule pIdx d t
      (roomToBuildingIndex inst (Int.ofNat r)) = false) :
    checkTravelTimes inst σ act d t r = false := by
  unfold checkTravelTimes
  by_cases hb : roomToBuildingIndex inst (Int.ofNat r) < 0
  · rw [if_pos hb]
  · rw [if_neg hb]
    simp only [hp]
    rw [hent]
    rfl

theorem checkTravelTimes_false_of_group {inst : ProblemInstance}
    {σ : TimetableState} {act : Activity} {d t r pIdx gIdx : Nat} {gid : Int}
    (hp : profIndexQ inst act.profId = some pIdx)
    (hmem : gid ∈ act.groupIds)
    (hgi : groupIndexQ inst gid = some gIdx)
    (hent : checkEntityTravel inst σ σ.groupSchedule gIdx d t
      (roomToBuildingIndex inst (Int.ofNat r)) = false) :
    checkTravelTimes inst σ act d t r = false := by
  unfold checkTravelTimes
  by_cases hb : roomToBuildingIndex inst (Int.ofNat r) < 0
  · rw [if_pos hb]
  · rw [if_neg hb]
    simp only [hp]
    have hall : (act.groupIds.all (fun gid' =>
        match groupIndexQ inst gid' with
        | none => false
        | some gIdx' => checkEntityTravel inst σ σ.groupSchedule gIdx' d t
            (roomToBuildingIndex inst (Int.ofNat r)))) = false := by
      rcases Bool.eq_false_or_eq_true (act.groupIds.all (fun gid' =>
        match groupIndexQ inst gid' with
        | none => false
        | some gIdx' => checkEntityTravel inst σ σ.groupSchedule gIdx' d t
            (roomToBuildingIndex inst (Int.ofNat r)))) with htr | hfa
      · exfalso
        have hx := List.all_eq_true.mp htr gid hmem
        rw [hgi] at hx
        have hx' : checkEntityTravel inst σ σ.groupSchedule gIdx d t
            (roomToBuildingIndex inst (Int.ofNat r)) = true := hx
        rw [hent] at hx'
        exact absurd hx' (by simp)
      · exact hfa
    rcases Bool.eq_false_or_eq_true (checkEntityTravel inst σ σ.profSchedule pIdx d t
      (roomToBuildingIndex inst (Int.ofNat r))) with hpe | hpe
    · rw [hpe]
      exact hall
    · rw [hpe]
      rfl

/-- place fails whenever checkTravelTimes fails (given in-range indices the
    wrapper reaches placeCore; out-of-range indices fail at the bounds). -/
theorem place_fst_false_of_travel {inst : ProblemInstance} {act : Activity}
    (day slot roomIndex : Int) (σ : TimetableState)
    (h : checkTravelTimes inst σ act day.toNat slot.toNat roomIndex.toNat = false) :
    (place inst act day slot roomIndex σ).1 = false := by
  unfold place
  by_cases h1 : day < 0 ∨ DAYS ≤ day ∨ slot < 0 ∨ SLOTS_PER_DAY ≤ slot
  · rw [if_pos h1]
  · rw [if_neg h1]
    by_cases h2 : roomIndex < 0 ∨ (inst.rooms.length : Int) ≤ roomIndex
    · rw [if_pos h2]
    · rw [if_neg h2]
      exact placeCore_fst_false_of_travel h

/-! ### Claim C4: the travel-time check -/

/-- Claim C4 (Travel-time check): place returns false whenever, in the
    immediately preceding or following slot of the same day, the activity's
    professor or any attending group has another activity whose room (the
    first room holding that activity id, as the code looks it up) is in a
    building at travel time strictly greater than 10 minutes from the
    candidate's building — or whose building id is invalid; and a candidate
    room whose building id does not index the buildings list makes the
    placement infeasible outright. -/
theorem C4_travel_time_check :
    (∀ (inst : ProblemInstance) (act : Activity) (day slot roomIndex : Int)
        (σ : TimetableState),
      roomToBuildingIndex inst roomIndex = -1 →
      (place inst act day slot roomIndex σ).1 = false) ∧
    (∀ (inst : ProblemInstance) (act : Activity) (day slot roomIndex : Int)
        (σ : TimetableState) (pIdx r' : Nat),
      profIndexQ inst act.profId = some pIdx →
      0 < slot.toNat →
      get3 σ.profSchedule pIdx day.toNat (slot.toNat - 1) ≠ kNone →
      findRoomOf σ (get3 σ.profSchedule pIdx day.toNat (slot.toNat - 1))
        day.toNat (slot.toNat - 1) = some r' →
      (roomToBuildingIndex inst (Int.ofNat r') < 0 ∨
        10 < travelAt inst (roomToBuildingIndex inst (Int.ofNat r'))
          (roomToBuildingIndex inst (Int.ofNat roomIndex.toNat))) →
      (place inst act day slot roomIndex σ).1 = false) ∧
    (∀ (inst : ProblemInstance) (act : Activity) (day slot roomIndex : Int)
        (σ : TimetableState) (pIdx r' : Nat),
      profIndexQ inst act.profId = some pIdx →
      slot.toNat < 5 →
      get3 σ.profSchedule pIdx day.toNat (slot.toNat + 1) ≠ kNone →
      findRoomOf σ (get3 σ.profSchedule pIdx day.toNat (slot.toNat + 1))
        day.toNat (slot.toNat + 1) = some r' →
      (roomToBuildingIndex inst (Int.ofNat r') < 0 ∨
        10 < travelAt inst (roomToBuildingIndex inst (Int.ofNat roomIndex.toNat))
          (roomToBuildingIndex inst (Int.ofNat r'))) →
      (place inst act day slot roomIndex σ).1 = false) ∧
    (∀ (inst : ProblemInstance) (act : Activity) (day slot roomIndex : Int)
        (σ : TimetableState) (pIdx gIdx r' : Nat) (gid : Int),
      profIndexQ inst act.profId = some pIdx →
      gid ∈ act.groupIds →
      groupIndexQ inst gid = some gIdx →
      0 < slot.toNat →
      get3 σ.groupSchedule gIdx day.toNat (slot.toNat - 1) ≠ kNone →
      findRoomOf σ (get3 σ.groupSchedule gIdx day.toNat (slot.toNat - 1))
        day.toNat (slot.toNat - 1) = some r' →
      (roomToBuildingIndex inst (Int.ofNat r') < 0 ∨
        10 < travelAt inst (roomToBuildingIndex inst (Int.ofNat r'))
          (roomToBuildingIndex inst (Int.ofNat roomIndex.toNat))) →
      (place inst act day slot roomIndex σ).1 = false) ∧
    (∀ (inst : ProblemInstance) (act : Activity) (day slot roomIndex : Int)
        (σ : TimetableState) (pIdx gIdx r' : Nat) (gid : Int),
      profIndexQ inst act.profId = some pIdx →
      gid ∈ act.groupIds →
      groupIndexQ inst gid = some gIdx →
      slot.toNat < 5 →
      get3 σ.groupSchedule gIdx day.toNat (slot.toNat + 1) ≠ kNone →
      findRoomOf σ (get3 σ.groupSchedule gIdx day.toNat (slot.toNat + 1))
        day.toNat (slot.toNat + 1) = some r' →
      (roomToBuildingIndex inst (Int.ofNat r') < 0 ∨
        10 < travelAt inst (roomToBuildingIndex inst (Int.ofNat roomIndex.toNat))
          (roomToBuildingIndex inst (Int.ofNat r'))) →
      (place inst act day slot roomIndex σ).1 = false) := by
  refine ⟨?_, ?_, ?_, ?_, ?_⟩
  · intro inst act day slot roomIndex σ h
    unfold place
    by_cases h1 : day < 0 ∨ DAYS ≤ day ∨ slot < 0 ∨ SLOTS_PER_DAY ≤ slot
    · rw [if_pos h1]
    · rw [if_neg h1]
      by_cases h2 : roomIndex < 0 ∨ (inst.rooms.length : Int) ≤ roomIndex
      · rw [if_pos h2]
      · rw [if_neg h2]
        push_neg at h2
        have hco : Int.ofNat roomIndex.toNat = roomIndex :=
          Int.toNat_of_nonneg h2.1
        refine placeCore_fst_false_of_travel
          (checkTravelTimes_false_of_badBuilding ?_)
        rw [hco, h]
        omega
  · intro inst act day slot roomIndex σ pIdx r' hp h0 hcell hfind hbad
    exact place_fst_false_of_travel day slot roomIndex σ
      (checkTravelTimes_false_of_prof hp
        (checkEntityTravel_false_prev h0 hcell hfind hbad))
  · intro inst act day slot roomIndex σ pIdx r' hp h5 hcell hfind hbad
    exact place_fst_false_of_travel day slot roomIndex σ
      (checkTravelTimes_false_of_prof hp
        (checkEntityTravel_false_next h5 hcell hfind hbad))
  · intro inst act day slot roomIndex σ pIdx gIdx r' gid hp hmem hgi h0 hcell hfind hbad
    exact place_fst_false_of_travel day slot roomIndex σ
      (checkTravelTimes_false_of_group hp hmem hgi
        (checkEntityTravel_false_prev h0 hcell hfind hbad))
  · intro inst act day slot roomIndex σ pIdx gIdx r' gid hp hmem hgi h5 hcell hfind hbad
    exact place_fst_false_of_travel day slot roomIndex σ
      (checkTravelTimes_false_of_group hp hmem hgi
        (checkEntityTravel_false_next h5 hcell hfind hbad))

/-- State with activity 0 (COURSE, professor 0, group 0) committed at
    (day 0, slot 1, room 0 in building 0). -/
def demoTravelState : TimetableState :=
  (place demoInst ⟨0, 0, ActivityType.COURSE, 0, [0]⟩ 0 1 0 (mkState demoInst)).2

theorem C4_travel_time_check_witness :
    (place demoInst ⟨0, 0, ActivityType.COURSE, 0, [0]⟩ 0 0 5 (mkState demoInst)).1 = false ∧
    (place demoInst ⟨2, 0, ActivityType.SEMINAR, 0, [1]⟩ 0 2 1 demoTravelState).1 = false ∧
    (place demoInst ⟨2, 0, ActivityType.SEMINAR, 0, [1]⟩ 0 0 1 demoTravelState).1 = false ∧
    (place demoInst ⟨3, 0, ActivityType.SEMINAR, 1, [0]⟩ 0 2 1 demoTravelState).1 = false ∧
    (place demoInst ⟨3, 0, ActivityType.SEMINAR, 1, [0]⟩ 0 0 1 demoTravelState).1 = false :=
  ⟨C4_travel_time_check.1 demoInst _ 0 0 5 (mkState demoInst) (by decide),
   C4_travel_time_check.2.1 demoInst _ 0 2 1 demoTravelState 0 0
     (by decide) (by decide) (by decide) (by decide) (Or.inr (by decide)),
   C4_travel_time_check.2.2.1 demoInst _ 0 0 1 demoTravelState 0 0
     (by decide) (by decide) (by decide) (by decide) (Or.inr (by decide)),
   C4_travel_time_check.2.2.2.1 demoInst _ 0 2 1 demoTravelState 1 0 0 0
     (by decide) (by decide) (by decide) (by decide) (by decide) (by decide)
     (Or.inr (by decide)),
   C4_travel_time_check.2.2.2.2 demoInst _ 0 0 1 demoTravelState 1 0 0 0
     (by decide) (by decide) (by decide) (by decide) (by decide) (by decide)
     (Or.inr (by decide))⟩

/-! ### Claim C8: room-type legality -/

/-- Claim C8 counterexample: place itself performs no room-type check —
    it succeeds placing a SEMINAR activity into a COURSE room. -/
theorem C8_counterexample :
    (place demoInst ⟨1, 0, ActivityType.SEMINAR, 1, [1]⟩ 0 0 0 (mkState demoInst)).1
      = true ∧
    roomTypeOk ActivityType.SEMINAR (demoInst.rooms.getD 0 default).type = false := by
  decide

/-- Claim C8 amended: room-type legality is enforced by the solvers, not by
    place — the candidate enumeration emits only (day, slot, room) triples
    whose room type matches the activity's type, so place is never invoked
    on a mismatched room during search. -/
theorem C8_amended_room_type_filter (inst : ProblemInstance) (act : Activity)
    (c : Nat × Nat × Nat) (h : c ∈ candTriples inst act) :
    roomTypeOk act.type (inst.rooms.getD c.2.2 default).type = true := by
  unfold candTriples at h
  simp only [List.mem_flatMap, List.mem_filterMap, List.mem_range] at h
  obtain ⟨d, hd, s, hs, r, hr, hc⟩ := h
  by_cases ht : roomTypeOk act.type (inst.rooms.getD r default).type = true
  · rw [if_pos ht] at hc
    injection hc with hc2
    rw [← hc2]
    exact ht
  · rw [if_neg ht] at hc
    cases hc

theorem C8_amended_room_type_filter_witness :
    (0, 0, 0) ∈ candTriples demoInst ⟨0, 0, ActivityType.COURSE, 0, [0]⟩ ∧
    roomTypeOk ActivityType.COURSE (demoInst.rooms.getD 0 default).type = true :=
  ⟨by decide, C8_amended_room_type_filter demoInst ⟨0, 0, ActivityType.COURSE, 0, [0]⟩
    (0, 0, 0) (by decide)⟩

/-! ### Claim C9: no fail-fast validation of static data -/

/-- An activity referencing professor id 99, which does not exist. -/
def badInst : ProblemInstance :=
  { buildings := [⟨0⟩], rooms := [⟨0, 0, 30, RoomType.COURSE⟩],
    professors := [⟨0⟩], groups := [⟨0⟩],
    activities := [⟨0, 0, ActivityType.COURSE, 99, [0]⟩], travelTime := [[0]] }

/-- An activity referencing group id 77, which does not exist. -/
def badInstG : ProblemInstance :=
  { buildings := [⟨0⟩], rooms := [⟨0, 0, 30, RoomType.COURSE⟩],
    professors := [⟨0⟩], groups := [⟨0⟩],
    activities := [⟨0, 0, ActivityType.COURSE, 0, [77]⟩], travelTime := [[0]] }

/-- Claim C9 counterexample: an activity referencing a non-existent
    professor id produces no configuration error before search — the search
    runs, every placement fails, and solve reports "no solution". -/
theorem C9_counterexample :
    solveSeq 1 badInst = none ∧
    (place badInst ⟨0, 0, ActivityType.COURSE, 99, [0]⟩ 0 0 0 (mkState badInst)).1
      = false := by
  decide

/-- Claim C9 amended: the code performs no validation of static data.  An
    activity with an unknown professor or group id simply fails every place
    call, so the whole search is empty and solve returns nullopt — a runtime
    "no solution", not a fail-fast configuration error. -/
theorem C9_amended_no_validation :
    (∀ (inst : ProblemInstance) (act : Activity) (day slot roomIndex : Int)
        (σ : TimetableState),
      profIndexQ inst act.profId = none →
      (place inst act day slot roomIndex σ).1 = false) ∧
    (∀ (inst : ProblemInstance) (act : Activity) (day slot roomIndex : Int)
        (σ : TimetableState) (gid : Int),
      gid ∈ act.groupIds → groupIndexQ inst gid = none →
      (place inst act day slot roomIndex σ).1 = false) ∧
    (∀ (inst : ProblemInstance) (act : Activity) (m : Nat),
      act ∈ inst.activities → profIndexQ inst act.profId = none →
      solveSeq m inst = none) := by
  refine ⟨?_, ?_, ?_⟩
  · intro inst act day slot roomIndex σ h
    exact place_fst_false_of_noProf day slot roomIndex σ h
  · intro inst act day slot roomIndex σ gid hmem h
    exact place_fst_false_of_noGroup day slot roomIndex σ hmem h
  · intro inst act m hmem h
    unfold solveSeq
    rw [enumC_nil_of_noProf h (orderActs inst) (mkState inst) (initPlacements inst)
      (by unfold orderActs; exact mem_sortByLe.mpr hmem)]
    rw [List.take_nil]
    rfl

theorem C9_amended_no_validation_witness :
    (place badInst ⟨0, 0, ActivityType.COURSE, 99, [0]⟩ 1 1 0 (mkState badInst)).1
      = false ∧
    (place badInstG ⟨0, 0, ActivityType.COURSE, 0, [77]⟩ 1 1 0 (mkState badInstG)).1
      = false ∧
    solveSeq 3 badInst = none :=
  ⟨C9_amended_no_validation.1 badInst ⟨0, 0, ActivityType.COURSE, 99, [0]⟩ 1 1 0
     (mkState badInst) (by decide),
   C9_amended_no_validation.2.1 badInstG ⟨0, 0, ActivityType.COURSE, 0, [77]⟩ 1 1 0
     (mkState badInstG) 77 (by decide) (by decide),
   C9_amended_no_validation.2.2 badInst ⟨0, 0, ActivityType.COURSE, 99, [0]⟩ 3
     (by decide) (by decide)⟩

/-! ### Soundness invariant of the search state

`stateInv` says each assigned entry of the placements array is mirrored in
the occupancy grids (data-model invariant of §3); `hoursInv` says each
professor's hour counter is twice the number of their assigned activities.
Both are established for the empty state and preserved by every successful
place along the search, which yields the mutual-exclusion and workload
properties of every complete solution. -/

/-- The activity with id i (the solvers assume ids index inst.activities). -/
def actOf (inst : ProblemInstance) (i : Nat) : Activity :=
  inst.activities.getD i default

/-- An assigned placements-array entry is mirrored in all occupancy grids. -/
def entryOK (inst : ProblemInstance) (σ : TimetableState) (i : Nat)
    (p : Placement) : Prop :=
  p.activityId = Int.ofNat i ∧
  0 ≤ p.day ∧ p.day < 5 ∧ 0 ≤ p.slot ∧ p.slot < 6 ∧
  0 ≤ p.roomIndex ∧ p.roomIndex < (inst.rooms.length : Int) ∧
  get3 σ.roomSchedule p.roomIndex.toNat p.day.toNat p.slot.toNat = Int.ofNat i ∧
  (∃ pIdx, profIndexQ inst (actOf inst i).profId = some pIdx ∧
    get3 σ.profSchedule pIdx p.day.toNat p.slot.toNat = Int.ofNat i) ∧
  (∀ gid ∈ (actOf inst i).groupIds, ∃ gIdx, groupIndexQ inst gid = some gIdx ∧
    get3 σ.groupSchedule gIdx p.day.toNat p.slot.toNat = Int.ofNat i)

/-- Invariant tying the placements array to the occupancy grids. -/
def stateInv (inst : ProblemInstance) (σ : TimetableState)
    (pl : List Placement) : Prop :=
  pl.length = inst.activities.length ∧
  ∀ i, i < pl.length →
    (pl.getD i default).activityId = -1 ∨ entryOK inst σ i (pl.getD i default)

/-- Number of assigned activities taught by professor pIdx in a
    placements array. -/
def profActCount (inst : ProblemInstance) (pl : List Placement) (pIdx : Nat) : Nat :=
  (List.range pl.length).countP (fun i =>
    !((pl.getD i default).activityId == -1) &&
    (profIndexQ inst (actOf inst i).profId == some pIdx))

/-- Invariant: hour counters are twice the assigned-activity counts. -/
def hoursInv (inst : ProblemInstance) (σ : TimetableState)
    (pl : List Placement) : Prop :=
  ∀ pIdx, pIdx < inst.professors.length →
    σ.profHours.getD pIdx 0 = 2 * (profActCount inst pl pIdx : Int)

theorem dims_row5 {n : Nat} {s : Sched} (h : schedDims n s) {x : Nat}
    (hx : x < s.length) : (s.getD x []).length = 5 :=
  (h.2 _ (getD_mem [] hx)).1

theorem dims_row6 {n : Nat} {s : Sched} (h : schedDims n s) {x y : Nat}
    (hx : x < s.length) (hy : y < 5) :
    ((s.getD x []).getD y []).length = 6 := by
  refine (h.2 _ (getD_mem [] hx)).2 _ (getD_mem [] ?_)
  rw [dims_row5 h hx]
  omega

theorem get3_set3_self_wf {n : Nat} {s : Sched} (hdims : schedDims n s)
    {x y z : Nat} (hx : x < s.length) (hy : y < 5) (hz : z < 6) (v : Int) :
    get3 (set3 s x y z v) x y z = v :=
  get3_set3_self v hx (by rw [dims_row5 hdims hx]; omega)
    (by rw [dims_row6 hdims hx hy]; omega)

theorem getD_replicate {α : Type} {n i : Nat} (x d : α) (h : i < n) :
    (List.replicate n x).getD i d = x := by
  induction n generalizing i with
  | zero => omega
  | succ m ih =>
    cases i with
    | zero => rfl
    | succ j =>
      simp only [List.replicate_succ, List.getD_cons_succ]
      exact ih (by omega)

theorem countP_update {l : List Nat} {p p' : Nat → Bool} {j : Nat}
    (hnd : l.Nodup) (hj : j ∈ l)
    (hsame : ∀ i ∈ l, i ≠ j → p' i = p i) (hpj : p j = false) :
    l.countP p' = l.countP p + (if p' j then 1 else 0) := by
  induction l with
  | nil => simp at hj
  | cons a t ih =>
    rw [List.countP_cons, List.countP_cons]
    rcases List.mem_cons.mp hj with heq | hj'
    · subst heq
      have hnotin : j ∉ t := (List.nodup_cons.mp hnd).1
      have ht : t.countP p' = t.countP p := by
        refine List.countP_congr ?_
        intro i hi
        rw [hsame i (List.mem_cons_of_mem _ hi) (fun hij => hnotin (hij ▸ hi))]
      rw [ht, hpj]
      simp only [Bool.false_eq_true, if_false, Nat.add_zero]
    · have hanej : a ≠ j := by
        rintro rfl
        exact (List.nodup_cons.mp hnd).1 hj'
      rw [hsame a (List.mem_cons_self _ _) hanej,
        ih (List.nodup_cons.mp hnd).2 hj'
          (fun i hi hij => hsame i (List.mem_cons_of_mem _ hi) hij)]
      omega

theorem candTriples_bounds {inst : ProblemInstance} {act : Activity}
    {c : Nat × Nat × Nat} (h : c ∈ candTriples inst act) :
    c.1 < 5 ∧ c.2.1 < 6 ∧ c.2.2 < inst.rooms.length := by
  unfold candTriples at h
  simp only [List.mem_flatMap, List.mem_filterMap, List.mem_range] at h
  obtain ⟨d, hd, s, hs, r, hr, hc⟩ := h
  by_cases ht : roomTypeOk act.type (inst.rooms.getD r default).type = true
  · rw [if_pos ht] at hc
    injection hc with hc2
    rw [← hc2]
    exact ⟨hd, hs, hr⟩
  · rw [if_neg ht] at hc
    cases hc

/-- DFS-path introduction rule for membership in the enumeration. -/
theorem enumC_mem_step {inst : ProblemInstance} {act : Activity}
    {rest : List Activity} {σ : TimetableState} {pl out : List Placement}
    (c : Nat × Nat × Nat)
    (hc : c ∈ candTriples inst act)
    (hpl : (place inst act (Int.ofNat c.1) (Int.ofNat c.2.1) (Int.ofNat c.2.2) σ).1 = true)
    (hout : out ∈ enumC inst rest
      (place inst act (Int.ofNat c.1) (Int.ofNat c.2.1) (Int.ofNat c.2.2) σ).2
      (pl.set act.id.toNat ⟨act.id, Int.ofNat c.1, Int.ofNat c.2.1, Int.ofNat c.2.2⟩)) :
    out ∈ enumC inst (act :: rest) σ pl := by
  show out ∈ (candTriples inst act).flatMap _
  refine List.mem_flatMap.mpr ⟨c, hc, ?_⟩
  cases hres : place inst act (Int.ofNat c.1) (Int.ofNat c.2.1) (Int.ofNat c.2.2) σ with
  | mk b σ' =>
    rw [hres] at hpl hout
    cases b with
    | false => simp at hpl
    | true => simpa using hout

theorem ofNat_lt_cast {m n : Nat} (h : m < n) : Int.ofNat m < (n : Int) := by
  have hmn : (m : Int) < (n : Int) := by exact_mod_cast h
  exact hmn

/-- One successful place preserves both search invariants. -/
theorem place_step_invariants {inst : ProblemInstance} {act : Activity}
    {d t r : Nat} {σ σ1 : TimetableState} {pl : List Placement}
    (hWF : WF inst σ) (hSI : stateInv inst σ pl) (hHI : hoursInv inst σ pl)
    (hact : actOf inst act.id.toNat = act) (hid0 : 0 ≤ act.id)
    (hidN : act.id.toNat < inst.activities.length)
    (hun : (pl.getD act.id.toNat default).activityId = -1)
    (hd : d < 5) (ht : t < 6) (hr : r < inst.rooms.length)
    (hpl : place inst act (Int.ofNat d) (Int.ofNat t) (Int.ofNat r) σ = (true, σ1)) :
    stateInv inst σ1
      (pl.set act.id.toNat ⟨act.id, Int.ofNat d, Int.ofNat t, Int.ofNat r⟩) ∧
    hoursInv inst σ1
      (pl.set act.id.toNat ⟨act.id, Int.ofNat d, Int.ofNat t, Int.ofNat r⟩) := by
  obtain ⟨w1, w2, w3, w4⟩ := hWF
  obtain ⟨hlen, hinv⟩ := hSI
  obtain ⟨_, _, _, _, _, _, hcore0⟩ := place_true_elim hpl
  have hcore : placeCore inst act d t r σ = (true, σ1) := hcore0
  obtain ⟨pIdx, hp, hroom, hgrp, hprof, htrav, hσ1⟩ := placeCore_true_elim hcore
  subst hσ1
  have hjpl : act.id.toNat < pl.length := by rw [hlen]; exact hidN
  have hpIdxS : pIdx < σ.profSchedule.length := by
    rw [w2.1]; exact idxOfPred_lt_length hp
  have hpIdxH : pIdx < σ.profHours.length := by
    rw [w4]; exact idxOfPred_lt_length hp
  have hrS : r < σ.roomSchedule.length := by rw [w1.1]; exact hr
  have hfreeRoom : get3 σ.roomSchedule r d t = kNone := checkRoomFree_eq hroom
  have hfreeProf : get3 σ.profSchedule pIdx d t = kNone := checkProfFree_eq hp hprof
  have hfreeGrp := checkGroupsFree_elim hgrp
  have hidEq : act.id = Int.ofNat act.id.toNat := (Int.toNat_of_nonneg hid0).symm
  constructor
  · -- stateInv
    refine ⟨by rw [List.length_set, hlen], ?_⟩
    intro i hi
    rw [List.length_set] at hi
    by_cases hij : i = act.id.toNat
    · subst hij
      right
      rw [getD_set_self _ _ hjpl]
      refine ⟨hidEq, Int.natCast_nonneg d,
        (show (d : Int) < 5 from by exact_mod_cast hd),
        Int.natCast_nonneg t, (show (t : Int) < 6 from by exact_mod_cast ht),
        Int.natCast_nonneg r, ofNat_lt_cast hr, ?_, ?_, ?_⟩
      · -- room cell
        show get3 (set3 σ.roomSchedule r d t act.id) r d t = Int.ofNat act.id.toNat
        rw [get3_set3_self_wf w1 hrS hd ht]
        exact hidEq
      · -- professor cell
        refine ⟨pIdx, by rw [hact]; exact hp, ?_⟩
        show get3 (set3 σ.profSchedule pIdx d t act.id) pIdx d t = Int.ofNat act.id.toNat
        rw [get3_set3_self_wf w2 hpIdxS hd ht]
        exact hidEq
      · -- group cells
        intro gid hg
        rw [hact] at hg
        obtain ⟨gIdx, hgi, _⟩ := hfreeGrp gid hg
        refine ⟨gIdx, hgi, ?_⟩
        show get3 (writeGroups inst act.groupIds d t act.id σ.groupSchedule)
          gIdx d t = Int.ofNat act.id.toNat
        rw [get3_writeGroups w3 hd ht]
        rw [if_pos ⟨⟨gid, hg, hgi⟩, rfl, rfl⟩]
        exact hidEq
    · rw [getD_set_ne _ _ (fun h => hij h.symm)]
      rcases hinv i hi with hleft | hOK
      · exact Or.inl hleft
      · right
        obtain ⟨h1, h2, h3, h4, h5, h6, h7, hcellR, ⟨pi', hpi', hcellP⟩, hcellG⟩ := hOK
        have hne1 : Int.ofNat i ≠ kNone := by
          have hge : (0 : Int) ≤ Int.ofNat i := Int.natCast_nonneg i
          unfold kNone
          omega
        refine ⟨h1, h2, h3, h4, h5, h6, h7, ?_, ⟨pi', hpi', ?_⟩, ?_⟩
        · show get3 (set3 σ.roomSchedule r d t act.id) _ _ _ = Int.ofNat i
          by_cases hco : (pl.getD i default).roomIndex.toNat = r ∧
              (pl.getD i default).day.toNat = d ∧ (pl.getD i default).slot.toNat = t
          · exfalso
            obtain ⟨e1, e2, e3⟩ := hco
            rw [e1, e2, e3] at hcellR
            rw [hcellR] at hfreeRoom
            exact hne1 hfreeRoom
          · rw [get3_set3_ne _ hco]
            exact hcellR
        · show get3 (set3 σ.profSchedule pIdx d t act.id) _ _ _ = Int.ofNat i
          by_cases hco : pi' = pIdx ∧ (pl.getD i default).day.toNat = d ∧
              (pl.getD i default).slot.toNat = t
          · exfalso
            obtain ⟨e1, e2, e3⟩ := hco
            rw [e1, e2, e3] at hcellP
            rw [hcellP] at hfreeProf
            exact hne1 hfreeProf
          · rw [get3_set3_ne _ hco]
            exact hcellP
        · intro gid hg
          obtain ⟨gIdx, hgi, hcellGi⟩ := hcellG gid hg
          refine ⟨gIdx, hgi, ?_⟩
          show get3 (writeGroups inst act.groupIds d t act.id σ.groupSchedule)
            _ _ _ = Int.ofNat i
          rw [get3_writeGroups w3 hd ht]
          by_cases hco : (∃ gid' ∈ act.groupIds, groupIndexQ inst gid' = some gIdx) ∧
              (pl.getD i default).day.toNat = d ∧ (pl.getD i default).slot.toNat = t
          · exfalso
            obtain ⟨⟨gid', hg', hgi'⟩, e2, e3⟩ := hco
            obtain ⟨gIdx2, hgi2, hfree2⟩ := hfreeGrp gid' hg'
            rw [hgi'] at hgi2
            have : gIdx2 = gIdx := by
              exact (Option.some.inj hgi2).symm
            subst this
            rw [e2, e3] at hcellGi
            rw [hcellGi] at hfree2
            exact hne1 hfree2
          · rw [if_neg hco]
            exact hcellGi
  · -- hoursInv
    intro q hq
    have hcount : profActCount inst
        (pl.set act.id.toNat ⟨act.id, Int.ofNat d, Int.ofNat t, Int.ofNat r⟩) q
        = profActCount inst pl q +
          (if (profIndexQ inst act.profId == some q) then 1 else 0) := by
      unfold profActCount
      rw [List.length_set]
      rw [countP_update (List.nodup_range _) (List.mem_range.mpr hjpl)
        (fun i _ hij => by rw [getD_set_ne _ _ (fun h => hij h.symm)])
        (by rw [hun]; simp)]
      congr 1
      rw [getD_set_self _ _ hjpl]
      have hne : (act.id == -1) = false := by
        simp only [beq_eq_false_iff_ne, ne_eq]
        omega
      rw [hact, hne]
      simp
    show (σ.profHours.set pIdx (σ.profHours.getD pIdx 0 + 2)).getD q 0 = _
    by_cases hqp : q = pIdx
    · subst hqp
      rw [getD_set_self _ _ hpIdxH, hHI q hq, hcount, hp]
      simp only [beq_self_eq_true, if_true]
      push_cast
      ring
    · rw [getD_set_ne _ _ (fun h => hqp h.symm), hHI q hq, hcount, hp]
      have hne : ((some pIdx : Option Nat) == some q) = false := by
        simp only [beq_eq_false_iff_ne, ne_eq, Option.some.injEq]
        exact fun h => hqp h.symm
      rw [hne]
      simp

/-- Every complete assignment produced by the search comes with a final
    state satisfying both invariants and the final workload check. -/
theorem enumC_sound {inst : ProblemInstance} :
    ∀ (acts : List Activity) (σ : TimetableState) (pl : List Placement),
    WF inst σ → stateInv inst σ pl → hoursInv inst σ pl →
    (∀ a ∈ acts, actOf inst a.id.toNat = a ∧ 0 ≤ a.id ∧
      a.id.toNat < inst.activities.length ∧
      (pl.getD a.id.toNat default).activityId = -1) →
    (acts.map (fun a => a.id)).Nodup →
    ∀ out ∈ enumC inst acts σ pl,
      ∃ σf, stateInv inst σf out ∧ hoursInv inst σf out ∧
        checkFinalWorkloadBounds inst σf = true := by
  intro acts
  induction acts with
  | nil =>
    intro σ pl hWF hSI hHI hacts hnd out hout
    unfold enumC at hout
    by_cases hc : checkFinalWorkloadBounds inst σ = true
    · rw [if_pos hc] at hout
      rw [List.mem_singleton] at hout
      subst hout
      exact ⟨σ, hSI, hHI, hc⟩
    · rw [if_neg hc] at hout
      simp at hout
  | cons act rest ih =>
    intro σ pl hWF hSI hHI hacts hnd out hout
    unfold enumC at hout
    rw [List.mem_flatMap] at hout
    obtain ⟨c, hc, hout⟩ := hout
    obtain ⟨hd, ht, hr⟩ := candTriples_bounds hc
    obtain ⟨ha1, ha2, ha3, ha4⟩ := hacts act (List.mem_cons_self _ _)
    have hndc : (∀ x ∈ rest, ¬x.id = act.id) ∧
        (rest.map (fun a => a.id)).Nodup := by simpa using hnd
    cases hpl : place inst act (Int.ofNat c.1) (Int.ofNat c.2.1) (Int.ofNat c.2.2) σ with
    | mk b σ1 =>
      rw [hpl] at hout
      cases b with
      | false => simp at hout
      | true =>
        simp only at hout
        have hstep := place_step_invariants ⟨hWF.1, hWF.2.1, hWF.2.2.1, hWF.2.2.2⟩
          ⟨hSI.1, hSI.2⟩ hHI ha1 ha2 ha3 ha4 hd ht hr hpl
        refine ih σ1 _ (WF_place hWF hpl) hstep.1 hstep.2 ?_ ?_ out hout
        · intro a ha
          obtain ⟨hb1, hb2, hb3, hb4⟩ := hacts a (List.mem_cons_of_mem _ ha)
          refine ⟨hb1, hb2, hb3, ?_⟩
          rw [getD_set_ne]
          · exact hb4
          · intro hEq
            have hsame : a.id = act.id := by omega
            exact hndc.1 a ha hsame
        · exact hndc.2

/-- Mutual exclusion of the assigned entries follows from stateInv alone:
    the occupancy cells are single-valued. -/
theorem stateInv_pairwise {inst : ProblemInstance} {σf : TimetableState}
    {out : List Placement} (hSI : stateInv inst σf out) :
    ∀ i j, i < out.length → j < out.length → i ≠ j →
    (out.getD i default).activityId ≠ -1 →
    (out.getD j default).activityId ≠ -1 →
    (out.getD i default).day = (out.getD j default).day →
    (out.getD i default).slot = (out.getD j default).slot →
    (out.getD i default).roomIndex ≠ (out.getD j default).roomIndex ∧
    (actOf inst i).profId ≠ (actOf inst j).profId ∧
    ∀ gid ∈ (actOf inst i).groupIds, gid ∉ (actOf inst j).groupIds := by
  intro i j hi hj hij hai haj hday hslot
  obtain ⟨_, hinv⟩ := hSI
  rcases hinv i hi with h | hOKi
  · exact absurd h hai
  rcases hinv j hj with h | hOKj
  · exact absurd h haj
  obtain ⟨e1i, d0i, d5i, s0i, s6i, r0i, rli, cRi, ⟨pi, hpi, cPi⟩, cGi⟩ := hOKi
  obtain ⟨e1j, d0j, d5j, s0j, s6j, r0j, rlj, cRj, ⟨pj, hpj, cPj⟩, cGj⟩ := hOKj
  have hdt : (out.getD i default).day.toNat = (out.getD j default).day.toNat := by
    rw [hday]
  have hst : (out.getD i default).slot.toNat = (out.getD j default).slot.toNat := by
    rw [hslot]
  refine ⟨?_, ?_, ?_⟩
  · intro hreq
    have hrt : (out.getD i default).roomIndex.toNat
        = (out.getD j default).roomIndex.toNat := by rw [hreq]
    rw [hrt, hdt, hst] at cRi
    exact hij (Int.ofNat.inj (cRi.symm.trans cRj))
  · intro hpeq
    rw [hpeq, hpj] at hpi
    have hpij : pj = pi := Option.some.inj hpi
    subst hpij
    rw [hdt, hst] at cPi
    exact hij (Int.ofNat.inj (cPi.symm.trans cPj))
  · intro gid hgmi hgmj
    obtain ⟨g1, hg1, c1⟩ := cGi gid hgmi
    obtain ⟨g2, hg2, c2⟩ := cGj gid hgmj
    rw [hg1] at hg2
    have hg12 : g1 = g2 := Option.some.inj hg2
    subst hg12
    rw [hdt, hst] at c1
    exact hij (Int.ofNat.inj (c1.symm.trans c2))

theorem stateInv_init (inst : ProblemInstance) :
    stateInv inst (mkState inst) (initPlacements inst) := by
  refine ⟨by simp [initPlacements], ?_⟩
  intro i hi
  left
  rw [initPlacements] at hi ⊢
  rw [List.length_replicate] at hi
  rw [getD_replicate _ _ hi]

theorem hoursInv_init (inst : ProblemInstance) :
    hoursInv inst (mkState inst) (initPlacements inst) := by
  intro pIdx hp
  show (List.replicate inst.professors.length (0 : Int)).getD pIdx 0 = _
  rw [getD_replicate _ _ hp]
  have hz : profActCount inst (initPlacements inst) pIdx = 0 := by
    unfold profActCount
    refine List.countP_eq_zero.mpr ?_
    intro i hi
    rw [List.mem_range] at hi
    rw [initPlacements] at hi ⊢
    rw [List.length_replicate] at hi
    rw [getD_replicate _ _ hi]
    simp
  rw [hz]
  simp

/-- The final workload check holds iff every professor is within [4, 80]. -/
theorem checkFinalWorkloadBounds_iff (inst : ProblemInstance) (σ : TimetableState) :
    checkFinalWorkloadBounds inst σ = true ↔
      ∀ pIdx, pIdx < inst.professors.length →
        4 ≤ σ.profHours.getD pIdx 0 ∧ σ.profHours.getD pIdx 0 ≤ 80 := by
  unfold checkFinalWorkloadBounds
  rw [List.all_eq_true]
  constructor
  · intro h pIdx hp
    have := h pIdx (List.mem_range.mpr hp)
    simpa using this
  · intro h i hi
    have := h i (List.mem_range.mp hi)
    simpa using this

/-! ### Claim C3: mutual exclusion -/

/-- Claim C3 (Mutual exclusion): (1) in every complete solution enumerated
    by the search from the empty state, two distinct assigned activities at
    the same (day, slot) never share a room, a professor, or any attending
    group; (2) after a successful place of one activity, a place of any
    second activity with the same professor at the same (day, slot) always
    returns false, regardless of which of the two is placed first. -/
theorem C3_mutual_exclusion :
    (∀ (inst : ProblemInstance) (acts : List Activity) (out : List Placement),
      (∀ a ∈ acts, actOf inst a.id.toNat = a ∧ 0 ≤ a.id ∧
        a.id.toNat < inst.activities.length) →
      (acts.map (fun a => a.id)).Nodup →
      out ∈ enumC inst acts (mkState inst) (initPlacements inst) →
      ∀ i j, i < out.length → j < out.length → i ≠ j →
        (out.getD i default).activityId ≠ -1 →
        (out.getD j default).activityId ≠ -1 →
        (out.getD i default).day = (out.getD j default).day →
        (out.getD i default).slot = (out.getD j default).slot →
        (out.getD i default).roomIndex ≠ (out.getD j default).roomIndex ∧
        (actOf inst i).profId ≠ (actOf inst j).profId ∧
        ∀ gid ∈ (actOf inst i).groupIds, gid ∉ (actOf inst j).groupIds) ∧
    (∀ (inst : ProblemInstance) (actA actB : Activity) (day slot r1 r2 : Int)
        (σ σ' : TimetableState),
      WF inst σ →
      place inst actA day slot r1 σ = (true, σ') →
      actB.profId = actA.profId →
      0 ≤ actA.id →
      (place inst actB day slot r2 σ').1 = false) := by
  constructor
  · intro inst acts out hacts hnd hout
    have hacts' : ∀ a ∈ acts, actOf inst a.id.toNat = a ∧ 0 ≤ a.id ∧
        a.id.toNat < inst.activities.length ∧
        ((initPlacements inst).getD a.id.toNat default).activityId = -1 := by
      intro a ha
      obtain ⟨h1, h2, h3⟩ := hacts a ha
      refine ⟨h1, h2, h3, ?_⟩
      rw [initPlacements, getD_replicate _ _ (by simpa [initPlacements] using h3)]
    obtain ⟨σf, hSI, _, _⟩ := enumC_sound acts (mkState inst) (initPlacements inst)
      (WF_mkState inst) (stateInv_init inst) (hoursInv_init inst) hacts' hnd out hout
    exact stateInv_pairwise hSI
  · intro inst actA actB day slot r1 r2 σ σ' hWF hpl hsameProf hid0
    obtain ⟨hd0, hd5, ht0, ht6, _, _, hcore⟩ := place_true_elim hpl
    obtain ⟨pIdx, hp, _, _, _, _, hσ'⟩ := placeCore_true_elim hcore
    subst hσ'
    have hpIdxS : pIdx < σ.profSchedule.length := by
      rw [hWF.2.1.1]; exact idxOfPred_lt_length hp
    have hdnat : day.toNat < 5 := by unfold DAYS at hd5; omega
    have htnat : slot.toNat < 6 := by unfold SLOTS_PER_DAY at ht6; omega
    have hcell : get3 (commitState inst actA day.toNat slot.toNat r1.toNat pIdx σ).profSchedule
        pIdx day.toNat slot.toNat = actA.id := by
      show get3 (set3 σ.profSchedule pIdx day.toNat slot.toNat actA.id) _ _ _ = _
      exact get3_set3_self_wf hWF.2.1 hpIdxS hdnat htnat actA.id
    have hpf : checkProfFree inst
        (commitState inst actA day.toNat slot.toNat r1.toNat pIdx σ)
        actB day.toNat slot.toNat = false := by
      unfold checkProfFree
      rw [hsameProf]
      simp only [hp]
      rw [hcell]
      have : ¬(actA.id = kNone) := by unfold kNone; omega
      simpa using this
    unfold place
    by_cases h1 : day < 0 ∨ DAYS ≤ day ∨ slot < 0 ∨ SLOTS_PER_DAY ≤ slot
    · rw [if_pos h1]
    · rw [if_neg h1]
      by_cases h2 : r2 < 0 ∨ (inst.rooms.length : Int) ≤ r2
      · rw [if_pos h2]
      · rw [if_neg h2]
        exact placeCore_fst_false_of_prof hpf

/-- One building, two COURSE rooms, two professors with two activities each
    — the smallest instance whose search yields complete solutions with two
    activities in the same (day, slot). -/
def demoInst3 : ProblemInstance :=
  { buildings := [⟨0⟩],
    rooms := [⟨0, 0, 30, RoomType.COURSE⟩, ⟨1, 0, 30, RoomType.COURSE⟩],
    professors := [⟨0⟩, ⟨1⟩],
    groups := [⟨0⟩, ⟨1⟩],
    activities := [⟨0, 0, ActivityType.COURSE, 0, [0]⟩,
                   ⟨1, 0, ActivityType.COURSE, 0, [0]⟩,
                   ⟨2, 0, ActivityType.COURSE, 1, [1]⟩,
                   ⟨3, 0, ActivityType.COURSE, 1, [1]⟩],
    travelTime := [[0]] }

/-- A complete feasible assignment of demoInst3: activities 0 and 2 share
    (day 0, slot 0) in different rooms. -/
def demoOut3 : List Placement :=
  [⟨0, 0, 0, 0⟩, ⟨1, 0, 1, 0⟩, ⟨2, 0, 0, 1⟩, ⟨3, 0, 1, 1⟩]

theorem demoOut3_mem :
    demoOut3 ∈ enumC demoInst3 demoInst3.activities (mkState demoInst3)
      (initPlacements demoInst3) := by
  refine enumC_mem_step (0, 0, 0) (by decide) (by decide) ?_
  refine enumC_mem_step (0, 1, 0) (by decide) (by decide) ?_
  refine enumC_mem_step (0, 0, 1) (by decide) (by decide) ?_
  refine enumC_mem_step (0, 1, 1) (by decide) (by decide) ?_
  decide

/-- State with demo activity 0 (professor 0) placed at (0, 0, room 0). -/
def demoPlacedA : TimetableState :=
  (place demoInst ⟨0, 0, ActivityType.COURSE, 0, [0]⟩ 0 0 0 (mkState demoInst)).2

theorem C3_mutual_exclusion_witness :
    ((demoOut3.getD 0 default).roomIndex ≠ (demoOut3.getD 2 default).roomIndex ∧
     (actOf demoInst3 0).profId ≠ (actOf demoInst3 2).profId ∧
     ∀ gid ∈ (actOf demoInst3 0).groupIds, gid ∉ (actOf demoInst3 2).groupIds) ∧
    (place demoInst ⟨2, 0, ActivityType.SEMINAR, 0, [1]⟩ 0 0 1 demoPlacedA).1 = false :=
  ⟨C3_mutual_exclusion.1 demoInst3 demoInst3.activities demoOut3
      (by decide) (by decide) demoOut3_mem 0 2
      (by decide) (by decide) (by decide) (by decide) (by decide)
      (by decide) (by decide),
   C3_mutual_exclusion.2 demoInst ⟨0, 0, ActivityType.COURSE, 0, [0]⟩
      ⟨2, 0, ActivityType.SEMINAR, 0, [1]⟩ 0 0 0 1 (mkState demoInst) demoPlacedA
      (by decide) (by decide) (by decide) (by decide)⟩

/-! ### Claim C5: workload bounds -/

/-- Claim C5 (Workload bound): checkFinalWorkloadBounds returns true iff
    every professor's accumulated hours lie in [4, 80]; the search accepts a
    complete assignment only when this check passes, so every enumerated
    complete solution gives every professor between 4 and 80 hours (2 hours
    per assigned activity). -/
theorem C5_workload_bounds :
    (∀ (inst : ProblemInstance) (σ : TimetableState),
      checkFinalWorkloadBounds inst σ = true ↔
        ∀ pIdx, pIdx < inst.professors.length →
          4 ≤ σ.profHours.getD pIdx 0 ∧ σ.profHours.getD pIdx 0 ≤ 80) ∧
    (∀ (inst : ProblemInstance) (acts : List Activity) (out : List Placement),
      (∀ a ∈ acts, actOf inst a.id.toNat = a ∧ 0 ≤ a.id ∧
        a.id.toNat < inst.activities.length) →
      (acts.map (fun a => a.id)).Nodup →
      out ∈ enumC inst acts (mkState inst) (initPlacements inst) →
      ∀ pIdx, pIdx < inst.professors.length →
        4 ≤ 2 * (profActCount inst out pIdx : Int) ∧
        2 * (profActCount inst out pIdx : Int) ≤ 80) := by
  constructor
  · exact checkFinalWorkloadBounds_iff
  · intro inst acts out hacts hnd hout pIdx hp
    have hacts' : ∀ a ∈ acts, actOf inst a.id.toNat = a ∧ 0 ≤ a.id ∧
        a.id.toNat < inst.activities.length ∧
        ((initPlacements inst).getD a.id.toNat default).activityId = -1 := by
      intro a ha
      obtain ⟨h1, h2, h3⟩ := hacts a ha
      refine ⟨h1, h2, h3, ?_⟩
      rw [initPlacements, getD_replicate _ _ (by simpa [initPlacements] using h3)]
    obtain ⟨σf, _, hHI, hchk⟩ := enumC_sound acts (mkState inst) (initPlacements inst)
      (WF_mkState inst) (stateInv_init inst) (hoursInv_init inst) hacts' hnd out hout
    have hbounds := (checkFinalWorkloadBounds_iff inst σf).mp hchk pIdx hp
    rw [hHI pIdx hp] at hbounds
    exact hbounds

theorem C5_workload_bounds_witness :
    (checkFinalWorkloadBounds demoInst3 (mkState demoInst3) = true ↔
      ∀ pIdx, pIdx < demoInst3.professors.length →
        4 ≤ (mkState demoInst3).profHours.getD pIdx 0 ∧
        (mkState demoInst3).profHours.getD pIdx 0 ≤ 80) ∧
    (4 ≤ 2 * (profActCount demoInst3 demoOut3 0 : Int) ∧
     2 * (profActCount demoInst3 demoOut3 0 : Int) ≤ 80) :=
  ⟨C5_workload_bounds.1 demoInst3 (mkState demoInst3),
   C5_workload_bounds.2 demoInst3 demoInst3.activities demoOut3
     (by decide) (by decide) demoOut3_mem 0 (by decide)⟩

/-! ### Claim C6: the scoring function against its specification

The spec-side definitions below follow the words of the claim: late-slot
count, idle slots strictly between the first and last occupied slot of a
resource's day, and distinct buildings beyond the second.  The occupancy
of a resource is read directly off the placement vector instead of off the
intermediate boolean cubes the code builds. -/

/-- Spec reading of (a): +1 per entry with activityId ≥ 0 and slot ≥ 4. -/
def lateSpec (pls : List Placement) : Nat :=
  pls.countP (fun p => (0 ≤ p.activityId) && (4 ≤ p.slot))

/-- Spec reading of (b) for one resource-day: the occupied slots of the day
    in increasing order, then the unoccupied slots strictly between the
    first and the last (0 when fewer than two distinct occupied slots). -/
def specGapRow (occ : Nat → Bool) : Nat :=
  match ((List.range 6).filter (fun s => occ s)).head?,
        ((List.range 6).filter (fun s => occ s)).getLast? with
  | some f, some l =>
      if f = l then 0
      else (List.range' (f + 1) (l - f - 1)).countP (fun s => !occ s)
  | _, _ => 0

theorem foldl_flStep_some (row : Nat → Bool) :
    ∀ (t : List Nat) (f l0 : Nat),
    t.foldl (flStep row) (some (f, l0))
      = some (f, (t.filter (fun s => row s)).getLastD l0) := by
  intro t
  induction t with
  | nil => intro f l0; rfl
  | cons s t ih =>
    intro f l0
    by_cases hs : row s = true
    · rw [List.foldl_cons]
      rw [show flStep row (some (f, l0)) s = some (f, s) by
        unfold flStep; rw [hs]; simp]
      rw [ih f s, List.filter_cons_of_pos hs, List.getLastD_cons]
    · rw [List.foldl_cons]
      rw [show flStep row (some (f, l0)) s = some (f, l0) by
        unfold flStep
        rw [Bool.not_eq_true] at hs
        rw [hs]
        simp]
      rw [ih f l0, List.filter_cons_of_neg (by simp [hs])]

theorem foldl_flStep_none (row : Nat → Bool) :
    ∀ (t : List Nat),
    t.foldl (flStep row) none
      = match t.filter (fun s => row s) with
        | [] => none
        | x :: xs => some (x, xs.getLastD x) := by
  intro t
  induction t with
  | nil => rfl
  | cons s t ih =>
    by_cases hs : row s = true
    · rw [List.foldl_cons]
      rw [show flStep row none s = some (s, s) by unfold flStep; rw [hs]; simp]
      rw [foldl_flStep_some, List.filter_cons_of_pos hs]
    · rw [List.foldl_cons]
      rw [show flStep row none s = none by
        unfold flStep
        rw [Bool.not_eq_true] at hs
        rw [hs]
        simp]
      rw [ih, List.filter_cons_of_neg (by simp [hs])]

theorem getLast?_cons_eq_getLastD {α : Type} (x : α) (xs : List α) :
    (x :: xs).getLast? = some (xs.getLastD x) := by
  induction xs generalizing x with
  | nil => rfl
  | cons y ys ih =>
    rw [List.getLastD_cons]
    rw [show (x :: y :: ys).getLast? = (y :: ys).getLast? from rfl]
    exact ih y

theorem getLastD_mem {α : Type} (x : α) (xs : List α) :
    xs.getLastD x ∈ x :: xs := by
  induction xs generalizing x with
  | nil => simp
  | cons y ys ih =>
    rw [List.getLastD_cons]
    rcases List.mem_cons.mp (ih y) with h | h
    · rw [h]; simp
    · exact List.mem_cons_of_mem _ (List.mem_cons_of_mem _ h)

/-- The per-day gap count of the code equals the spec's strictly-between
    count: the first and last occupied slots are themselves occupied, so
    including them in the scan adds nothing. -/
theorem gapCount_eq_specGapRow (row : Nat → Bool) :
    gapCount row = specGapRow row := by
  unfold gapCount specGapRow firstLastOcc
  rw [foldl_flStep_none]
  cases hocc : (List.range 6).filter (fun s => row s) with
  | nil => rfl
  | cons x xs =>
    rw [getLast?_cons_eq_getLastD]
    simp only [List.head?_cons]
    by_cases hfl : x = xs.getLastD x
    · rw [if_pos hfl, if_pos hfl]
    · have hxlt : x < xs.getLastD x := by
        have hsorted : List.Pairwise (fun a b => a < b)
            ((List.range 6).filter (fun s => row s)) :=
          List.Pairwise.filter _ (List.pairwise_lt_range 6)
        rw [hocc] at hsorted
        rcases List.mem_cons.mp (getLastD_mem x xs) with h | h
        · exact absurd h.symm hfl
        · exact List.rel_of_pairwise_cons hsorted h
      rw [if_neg hfl, if_neg hfl]
      have hoccx : row x = true := by
        have : x ∈ (List.range 6).filter (fun s => row s) := by
          rw [hocc]; simp
        exact (List.mem_filter.mp this).2
      have hoccl : row (xs.getLastD x) = true := by
        have : xs.getLastD x ∈ (List.range 6).filter (fun s => row s) := by
          rw [hocc]; exact getLastD_mem x xs
        exact (List.mem_filter.mp this).2
      have hsplit1 : List.range' x (xs.getLastD x + 1 - x)
          = x :: List.range' (x + 1) (xs.getLastD x - x) := by
        rw [show xs.getLastD x + 1 - x = (xs.getLastD x - x) + 1 by omega]
        rw [List.range'_succ]
      have hsplit2 : List.range' (x + 1) (xs.getLastD x - x)
          = List.range' (x + 1) (xs.getLastD x - x - 1) ++ [xs.getLastD x] := by
        rw [show xs.getLastD x - x = (xs.getLastD x - x - 1) + 1 by omega]
        rw [List.range'_concat]
        congr 2
        omega
      rw [hsplit1, List.countP_cons, hsplit2, List.countP_append]
      simp only [hoccx, hoccl, List.countP_cons, List.countP_nil,
        Bool.not_true, Bool.false_eq_true, if_false]
      omega

/-- Dimension discipline of a boolean occupancy cube. -/
def bDims (n : Nat) (s : BCube) : Prop :=
  s.length = n ∧ ∀ g ∈ s, g.length = 5 ∧ ∀ r ∈ g, r.length = 6

theorem bDims_mkBCube (n : Nat) : bDims n (mkBCube n) := by
  refine ⟨by simp [mkBCube], ?_⟩
  intro g hg
  rw [List.eq_of_mem_replicate hg]
  refine ⟨by simp, ?_⟩
  intro r hr
  rw [List.eq_of_mem_replicate hr]
  simp

theorem length_setB (s : BCube) (i d t : Nat) (v : Bool) :
    (setB s i d t v).length = s.length := by
  simp [setB]

theorem getB_setB_self {s : BCube} {i d t : Nat} (v : Bool)
    (hi : i < s.length) (hd : d < (s.getD i []).length)
    (ht : t < ((s.getD i []).getD d []).length) :
    getB (setB s i d t v) i d t = v := by
  unfold getB setB
  rw [getD_set_self _ _ hi,
      getD_set_self _ _ (by simpa using hd),
      getD_set_self _ _ (by simpa using ht)]

theorem getB_setB_ne {s : BCube} {i d t x y z : Nat} (v : Bool)
    (h : ¬(x = i ∧ y = d ∧ z = t)) :
    getB (setB s i d t v) x y z = getB s x y z := by
  unfold getB setB
  rcases eq_or_ne x i with rfl | hxi
  · rcases Nat.lt_or_ge x s.length with hlen | hlen
    · rw [getD_set_self _ _ hlen]
      rcases eq_or_ne y d with rfl | hyd
      · rcases Nat.lt_or_ge y (s.getD x []).length with hdl | hdl
        · rw [getD_set_self _ _ hdl]
          have hzt : z ≠ t := fun hz => h ⟨rfl, rfl, hz⟩
          rw [getD_set_ne _ _ (Ne.symm hzt)]
        · rw [List.set_eq_of_length_le hdl]
      · rw [getD_set_ne _ _ (Ne.symm hyd)]
    · rw [List.set_eq_of_length_le hlen]
  · rw [getD_set_ne _ _ (Ne.symm hxi)]

theorem bDims_setB {n : Nat} {s : BCube} (i d t : Nat) (v : Bool)
    (h : bDims n s) : bDims n (setB s i d t v) := by
  obtain ⟨hlen, hmem⟩ := h
  rcases Nat.lt_or_ge i s.length with hi | hi
  · refine ⟨by simpa [setB] using hlen, ?_⟩
    intro g hg
    unfold setB at hg
    rcases List.mem_or_eq_of_mem_set hg with hg' | rfl
    · exact hmem g hg'
    · obtain ⟨h5, h6⟩ := hmem _ (getD_mem [] hi)
      rcases Nat.lt_or_ge d (s.getD i []).length with hd | hd
      · refine ⟨by simpa using h5, ?_⟩
        intro r hr
        rcases List.mem_or_eq_of_mem_set hr with hr' | rfl
        · exact h6 r hr'
        · have hr6 := h6 _ (getD_mem [] hd)
          simpa using hr6
      · rw [List.set_eq_of_length_le hd]
        exact ⟨h5, h6⟩
  · unfold setB
    rw [List.set_eq_of_length_le hi]
    exact ⟨hlen, hmem⟩

theorem bDims_row5 {n : Nat} {s : BCube} (h : bDims n s) {x : Nat}
    (hx : x < s.length) : (s.getD x []).length = 5 :=
  (h.2 _ (getD_mem [] hx)).1

theorem bDims_row6 {n : Nat} {s : BCube} (h : bDims n s) {x y : Nat}
    (hx : x < s.length) (hy : y < 5) :
    ((s.getD x []).getD y []).length = 6 := by
  refine (h.2 _ (getD_mem [] hx)).2 _ (getD_mem [] ?_)
  rw [bDims_row5 h hx]
  omega

theorem bDims_markGroups {inst : ProblemInstance} {n : Nat} {gids : List Int}
    {d t : Nat} {g : BCube} (h : bDims n g) :
    bDims n (markGroups inst gids d t g) := by
  induction gids generalizing g with
  | nil => exact h
  | cons gid rest ih =>
    show bDims n (markGroups inst rest d t _)
    cases hq : groupIndexQ inst gid with
    | none => simpa [markGroups, hq] using ih h
    | some gIdx =>
      simp only [markGroups, List.foldl_cons, hq]
      exact ih (bDims_setB _ _ _ _ h)

theorem getB_markGroups {inst : ProblemInstance} {gids : List Int}
    {d t : Nat} {g : BCube}
    (hdims : bDims inst.groups.length g) (hd : d < 5) (ht : t < 6)
    (x y z : Nat) :
    getB (markGroups inst gids d t g) x y z =
      if (∃ gid ∈ gids, groupIndexQ inst gid = some x) ∧ y = d ∧ z = t then true
      else getB g x y z := by
  induction gids generalizing g with
  | nil => simp [markGroups]
  | cons gid rest ih =>
    cases hq : groupIndexQ inst gid with
    | none =>
      have step : markGroups inst (gid :: rest) d t g
          = markGroups inst rest d t g := by
        simp [markGroups, hq]
      rw [step, ih hdims]
      by_cases hcr : (∃ gid' ∈ rest, groupIndexQ inst gid' = some x) ∧ y = d ∧ z = t
      · rw [if_pos hcr, if_pos ⟨⟨hcr.1.choose,
          List.mem_cons_of_mem _ hcr.1.choose_spec.1, hcr.1.choose_spec.2⟩, hcr.2⟩]
      · have hnc : ¬((∃ gid' ∈ gid :: rest, groupIndexQ inst gid' = some x)
            ∧ y = d ∧ z = t) := by
          rintro ⟨⟨gid', hmem, hq'⟩, hyz⟩
          rcases List.mem_cons.mp hmem with rfl | hmem'
          · rw [hq] at hq'; simp at hq'
          · exact hcr ⟨⟨gid', hmem', hq'⟩, hyz⟩
        rw [if_neg hcr, if_neg hnc]
    | some gIdx =>
      have step : markGroups inst (gid :: rest) d t g
          = markGroups inst rest d t (setB g gIdx d t true) := by
        simp [markGroups, hq]
      have hgi : gIdx < g.length := by
        rw [hdims.1]; exact idxOfPred_lt_length hq
      rw [step, ih (bDims_setB _ _ _ _ hdims)]
      by_cases hr : (∃ gid' ∈ rest, groupIndexQ inst gid' = some x) ∧ y = d ∧ z = t
      · rw [if_pos hr, if_pos ⟨⟨hr.1.choose, List.mem_cons_of_mem _ hr.1.choose_spec.1,
          hr.1.choose_spec.2⟩, hr.2⟩]
      · rw [if_neg hr]
        by_cases hx : x = gIdx ∧ y = d ∧ z = t
        · obtain ⟨rfl, rfl, rfl⟩ := hx
          rw [getB_setB_self true hgi
              (by rw [bDims_row5 hdims hgi]; omega)
              (by rw [bDims_row6 hdims hgi hd]; omega)]
          rw [if_pos ⟨⟨gid, List.mem_cons_self _ _, hq⟩, rfl, rfl⟩]
        · rw [getB_setB_ne true hx]
          have hnc : ¬((∃ gid' ∈ gid :: rest, groupIndexQ inst gid' = some x)
              ∧ y = d ∧ z = t) := by
            rintro ⟨⟨gid', hmem, hq'⟩, rfl, rfl⟩
            rcases List.mem_cons.mp hmem with rfl | hmem'
            · rw [hq] at hq'
              exact hx ⟨(Option.some.inj hq').symm, rfl, rfl⟩
            · exact hr ⟨⟨gid', hmem', hq'⟩, rfl, rfl⟩
          rw [if_neg hnc]

/-- Occupancy cells of the group fill, read back as a scan of the
    placement vector. -/
theorem getB_fillGroupOcc_fold (inst : ProblemInstance) :
    ∀ (pls : List Placement) (acc : BCube), bDims inst.groups.length acc →
    (∀ p ∈ pls, 0 ≤ p.activityId →
      0 ≤ p.day ∧ p.day < 5 ∧ 0 ≤ p.slot ∧ p.slot < 6) →
    ∀ x d s : Nat,
    getB (pls.foldl (fun acc p =>
      if p.activityId < (0 : Int) then acc
      else markGroups inst (inst.activities.getD p.activityId.toNat default).groupIds
        p.day.toNat p.slot.toNat acc) acc) x d s =
      (getB acc x d s ||
        pls.any (fun p => (0 ≤ p.activityId) && (p.day == (d : Int)) &&
          (p.slot == (s : Int)) &&
          ((inst.activities.getD p.activityId.toNat default).groupIds.any
            (fun gid => groupIndexQ inst gid == some x)))) := by
  intro pls
  induction pls with
  | nil =>
    intro acc _ _ x d s
    simp
  | cons p t ih =>
    intro acc hacc hdom x d s
    rw [List.foldl_cons, List.any_cons]
    by_cases hass : p.activityId < (0 : Int)
    · rw [if_pos hass]
      rw [ih acc hacc (fun q hq => hdom q (List.mem_cons_of_mem _ hq)) x d s]
      have hpred : ((0 ≤ p.activityId : Bool) && (p.day == (d : Int)) &&
          (p.slot == (s : Int)) &&
          ((inst.activities.getD p.activityId.toNat default).groupIds.any
            (fun gid => groupIndexQ inst gid == some x))) = false := by
        have h0 : (0 ≤ p.activityId : Bool) = false := by
          simp only [decide_eq_false_iff_not, not_le]
          exact hass
        rw [h0]
        simp
      rw [hpred]
      simp
    · rw [if_neg hass]
      have h0 : (0 : Int) ≤ p.activityId := le_of_not_lt hass
      obtain ⟨hd0, hd5, hs0, hs6⟩ := hdom p (List.mem_cons_self _ _) h0
      have hdp : p.day.toNat < 5 := by omega
      have htp : p.slot.toNat < 6 := by omega
      rw [ih _ (bDims_markGroups hacc)
        (fun q hq => hdom q (List.mem_cons_of_mem _ hq)) x d s]
      rw [getB_markGroups hacc hdp htp]
      set gids := (inst.activities.getD p.activityId.toNat default).groupIds with hgids
      by_cases hC : (∃ gid ∈ gids, groupIndexQ inst gid = some x) ∧
          d = p.day.toNat ∧ s = p.slot.toNat
      · rw [if_pos hC]
        have hpred : ((0 ≤ p.activityId : Bool) && (p.day == (d : Int)) &&
            (p.slot == (s : Int)) && (gids.any (fun gid => groupIndexQ inst gid == some x)))
            = true := by
          obtain ⟨⟨gid, hgm, hgq⟩, hCd, hCs⟩ := hC
          have h1 : (0 ≤ p.activityId : Bool) = true := by simpa using h0
          have h2 : (p.day == (d : Int)) = true := by
            have : p.day = (d : Int) := by omega
            simpa using this
          have h3 : (p.slot == (s : Int)) = true := by
            have : p.slot = (s : Int) := by omega
            simpa using this
          have h4 : (gids.any (fun gid => groupIndexQ inst gid == some x)) = true := by
            refine List.any_eq_true.mpr ⟨gid, hgm, ?_⟩
            simpa using hgq
          rw [h1, h2, h3, h4]
          rfl
        rw [hpred]
        simp
      · rw [if_neg hC]
        have hpred : ((0 ≤ p.activityId : Bool) && (p.day == (d : Int)) &&
            (p.slot == (s : Int)) && (gids.any (fun gid => groupIndexQ inst gid == some x)))
            = false := by
          rcases Bool.eq_false_or_eq_true ((0 ≤ p.activityId : Bool) && (p.day == (d : Int)) &&
            (p.slot == (s : Int)) && (gids.any (fun gid => groupIndexQ inst gid == some x)))
            with htr | hfa
          swap
          · exact hfa
          · exfalso
            simp only [Bool.and_eq_true, List.any_eq_true, decide_eq_true_eq,
              beq_iff_eq] at htr
            obtain ⟨⟨⟨_, hday⟩, hslot⟩, gid, hgm, hgq⟩ := htr
            exact hC ⟨⟨gid, hgm, hgq⟩, by omega, by omega⟩
        rw [hpred]
        simp

theorem getB_mkBCube (n x d s : Nat) : getB (mkBCube n) x d s = false := by
  unfold getB mkBCube
  rcases Nat.lt_or_ge x n with hx | hx
  · rw [getD_replicate _ _ hx]
    rcases Nat.lt_or_ge d 5 with hd | hd
    · rw [getD_replicate _ _ hd]
      rcases Nat.lt_or_ge s 6 with hs | hs
      · rw [getD_replicate _ _ hs]
      · exact getD_oob _ (by simpa using hs)
    · rw [show (List.replicate 5 (List.replicate 6 false)).getD d []
          = ([] : List Bool) from getD_oob _ (by simpa using hd)]
      simp
  · rw [show (List.replicate n (List.replicate 5 (List.replicate 6 false))).getD x []
        = ([] : List (List Bool)) from getD_oob _ (by simpa using hx)]
    simp

/-- The group occupancy cube, cell by cell: a cell is set exactly when some
    assigned placement at that (day, slot) belongs to an activity one of
    whose groups resolves to that group index. -/
theorem getB_fillGroupOcc (inst : ProblemInstance) (pls : List Placement)
    (hdom : ∀ p ∈ pls, 0 ≤ p.activityId →
      0 ≤ p.day ∧ p.day < 5 ∧ 0 ≤ p.slot ∧ p.slot < 6) (x d s : Nat) :
    getB (fillGroupOcc inst pls) x d s =
      pls.any (fun p => (0 ≤ p.activityId) && (p.day == (d : Int)) &&
        (p.slot == (s : Int)) &&
        ((inst.activities.getD p.activityId.toNat default).groupIds.any
          (fun gid => groupIndexQ inst gid == some x))) := by
  unfold fillGroupOcc
  rw [getB_fillGroupOcc_fold inst pls _ (bDims_mkBCube _) hdom x d s,
    getB_mkBCube]
  simp

/-- Occupancy cells of the professor fill, read back as a scan of the
    placement vector. -/
theorem getB_fillProfOcc_fold (inst : ProblemInstance) :
    ∀ (pls : List Placement) (acc : BCube), bDims inst.professors.length acc →
    (∀ p ∈ pls, 0 ≤ p.activityId →
      0 ≤ p.day ∧ p.day < 5 ∧ 0 ≤ p.slot ∧ p.slot < 6) →
    ∀ x d s : Nat,
    getB (pls.foldl (fun acc p =>
      if p.activityId < (0 : Int) then acc
      else
        match profIndexQ inst (inst.activities.getD p.activityId.toNat default).profId with
        | some pIdx => setB acc pIdx p.day.toNat p.slot.toNat true
        | none => acc) acc) x d s =
      (getB acc x d s ||
        pls.any (fun p => (0 ≤ p.activityId) && (p.day == (d : Int)) &&
          (p.slot == (s : Int)) &&
          (profIndexQ inst (inst.activities.getD p.activityId.toNat default).profId
            == some x))) := by
  intro pls
  induction pls with
  | nil =>
    intro acc _ _ x d s
    simp
  | cons p t ih =>
    intro acc hacc hdom x d s
    rw [List.foldl_cons, List.any_cons]
    by_cases hass : p.activityId < (0 : Int)
    · rw [if_pos hass]
      rw [ih acc hacc (fun q hq => hdom q (List.mem_cons_of_mem _ hq)) x d s]
      have h0 : (0 ≤ p.activityId : Bool) = false := by
        simp only [decide_eq_false_iff_not, not_le]
        exact hass
      rw [h0]
      simp
    · rw [if_neg hass]
      have h0 : (0 : Int) ≤ p.activityId := le_of_not_lt hass
      obtain ⟨hd0, hd5, hs0, hs6⟩ := hdom p (List.mem_cons_self _ _) h0
      cases hpi : profIndexQ inst
          (inst.activities.getD p.activityId.toNat default).profId with
      | none =>
        simp only [hpi]
        rw [ih acc hacc (fun q hq => hdom q (List.mem_cons_of_mem _ hq)) x d s]
        simp
      | some pIdx =>
        simp only [hpi]
        have hplt : pIdx < inst.professors.length := by
          have hpi' : idxOfPred (fun pr => pr.id ==
              (inst.activities.getD p.activityId.toNat default).profId)
              inst.professors = some pIdx := hpi
          exact idxOfPred_lt_length hpi'
        have hplt' : pIdx < acc.length := by rw [hacc.1]; exact hplt
        rw [ih _ (bDims_setB _ _ _ _ hacc)
          (fun q hq => hdom q (List.mem_cons_of_mem _ hq)) x d s]
        by_cases hC : x = pIdx ∧ d = p.day.toNat ∧ s = p.slot.toNat
        · obtain ⟨rfl, hCd, hCs⟩ := hC
          rw [hCd, hCs]
          rw [getB_setB_self true hplt'
            (by rw [bDims_row5 hacc hplt']; omega)
            (by rw [bDims_row6 hacc hplt' (by omega)]; omega)]
          have hpred : ((0 ≤ p.activityId : Bool) && (p.day == (p.day.toNat : Int)) &&
              (p.slot == (p.slot.toNat : Int)) && ((some x : Option Nat) == some x))
              = true := by
            have h2 : p.day = (p.day.toNat : Int) := by omega
            have h3 : p.slot = (p.slot.toNat : Int) := by omega
            rw [← h2, ← h3]
            simp [h0]
          rw [hpred]
          simp
        · rw [getB_setB_ne true (by
            intro hcc
            exact hC ⟨hcc.1, by omega, by omega⟩)]
          have hpred : ((0 ≤ p.activityId : Bool) && (p.day == (d : Int)) &&
              (p.slot == (s : Int)) && (some pIdx == some x)) = false := by
            rcases Bool.eq_false_or_eq_true ((0 ≤ p.activityId : Bool) &&
              (p.day == (d : Int)) && (p.slot == (s : Int)) &&
              (some pIdx == some x)) with htr | hfa
            swap
            · exact hfa
            · exfalso
              simp only [Bool.and_eq_true, decide_eq_true_eq, beq_iff_eq,
                Option.some.injEq] at htr
              obtain ⟨⟨⟨_, hday⟩, hslot⟩, hxp⟩ := htr
              exact hC ⟨hxp.symm, by omega, by omega⟩
          rw [hpred]
          simp

/-- The professor occupancy cube, cell by cell. -/
theorem getB_fillProfOcc (inst : ProblemInstance) (pls : List Placement)
    (hdom : ∀ p ∈ pls, 0 ≤ p.activityId →
      0 ≤ p.day ∧ p.day < 5 ∧ 0 ≤ p.slot ∧ p.slot < 6) (x d s : Nat) :
    getB (fillProfOcc inst pls) x d s =
      pls.any (fun p => (0 ≤ p.activityId) && (p.day == (d : Int)) &&
        (p.slot == (s : Int)) &&
        (profIndexQ inst (inst.activities.getD p.activityId.toNat default).profId
          == some x)) := by
  unfold fillProfOcc
  rw [getB_fillProfOcc_fold inst pls _ (bDims_mkBCube _) hdom x d s,
    getB_mkBCube]
  simp

/-- The used-building vector keeps its length through the fold. -/
theorem usedBuildings_fold_length (inst : ProblemInstance)
    (attends : Placement → Bool) (d : Nat) :
    ∀ (pls : List Placement) (init : List Bool),
    (pls.foldl (fun used p =>
      if p.activityId < (0 : Int) then used
      else if p.day ≠ (d : Int) then used
      else if !attends p then used
      else
        if 0 ≤ roomToBuildingScore inst p.roomIndex ∧
            roomToBuildingScore inst p.roomIndex < (used.length : Int) then
          used.set (roomToBuildingScore inst p.roomIndex).toNat true
        else used) init).length = init.length := by
  intro pls
  induction pls with
  | nil => intro init; rfl
  | cons p t ih =>
    intro init
    rw [List.foldl_cons]
    by_cases h1 : p.activityId < (0 : Int)
    · rw [if_pos h1, ih]
    rw [if_neg h1]
    by_cases h2 : p.day ≠ (d : Int)
    · rw [if_pos h2, ih]
    rw [if_neg h2]
    by_cases h3 : (!attends p) = true
    · rw [if_pos h3, ih]
    rw [if_neg h3]
    by_cases h4 : 0 ≤ roomToBuildingScore inst p.roomIndex ∧
        roomToBuildingScore inst p.roomIndex < (init.length : Int)
    · rw [if_pos h4, ih, List.length_set]
    · rw [if_neg h4, ih]

/-- Each cell of the used-building vector, read back as a scan of the
    placement vector: building `b` is marked exactly when some assigned,
    attending placement on day `d` sits in a room of building `b`. -/
theorem getD_usedBuildings_fold (inst : ProblemInstance)
    (attends : Placement → Bool) (d : Nat) :
    ∀ (pls : List Placement) (init : List Bool), ∀ b : Nat, b < init.length →
    ((pls.foldl (fun used p =>
      if p.activityId < (0 : Int) then used
      else if p.day ≠ (d : Int) then used
      else if !attends p then used
      else
        if 0 ≤ roomToBuildingScore inst p.roomIndex ∧
            roomToBuildingScore inst p.roomIndex < (used.length : Int) then
          used.set (roomToBuildingScore inst p.roomIndex).toNat true
        else used) init).getD b false)
      = (init.getD b false ||
        pls.any (fun p => (0 ≤ p.activityId) && (p.day == (d : Int)) && attends p &&
          (roomToBuildingScore inst p.roomIndex == (b : Int)))) := by
  intro pls
  induction pls with
  | nil =>
    intro init b _
    simp
  | cons p t ih =>
    intro init b hb
    rw [List.foldl_cons, List.any_cons]
    by_cases h1 : p.activityId < (0 : Int)
    · rw [if_pos h1, ih init b hb]
      have h0 : (0 ≤ p.activityId : Bool) = false := by
        simp only [decide_eq_false_iff_not, not_le]
        exact h1
      rw [h0]
      simp
    rw [if_neg h1]
    have h0 : (0 ≤ p.activityId : Bool) = true := by
      simpa using le_of_not_lt h1
    by_cases h2 : p.day ≠ (d : Int)
    · rw [if_pos h2, ih init b hb]
      have hday : (p.day == (d : Int)) = false := by
        simpa using h2
      rw [hday]
      simp
    rw [if_neg h2]
    have hday : (p.day == (d : Int)) = true := by
      simpa using not_ne_iff.mp h2
    by_cases h3 : (!attends p) = true
    · rw [if_pos h3, ih init b hb]
      have hatt : attends p = false := by simpa using h3
      rw [hatt]
      simp
    rw [if_neg h3]
    have hatt : attends p = true := by
      rcases Bool.eq_false_or_eq_true (attends p) with h | h
      · exact h
      · exact absurd (by rw [h]; rfl) h3
    by_cases h4 : 0 ≤ roomToBuildingScore inst p.roomIndex ∧
        roomToBuildingScore inst p.roomIndex < (init.length : Int)
    · rw [if_pos h4, ih _ b (by rw [List.length_set]; exact hb)]
      by_cases hbe : (roomToBuildingScore inst p.roomIndex).toNat = b
      · have hset : (init.set (roomToBuildingScore inst p.roomIndex).toNat true).getD
            b false = true := by
          rw [← hbe]
          exact getD_set_self _ _ (by rw [hbe]; exact hb)
        rw [hset]
        have hbeq : (roomToBuildingScore inst p.roomIndex == (b : Int)) = true := by
          have : roomToBuildingScore inst p.roomIndex = (b : Int) := by omega
          simpa using this
        rw [h0, hday, hatt, hbeq]
        simp
      · rw [getD_set_ne _ _ hbe]
        have hbeq : (roomToBuildingScore inst p.roomIndex == (b : Int)) = false := by
          have : roomToBuildingScore inst p.roomIndex ≠ (b : Int) := by omega
          simpa using this
        rw [h0, hday, hatt, hbeq]
        simp
    · rw [if_neg h4, ih init b hb]
      have hbeq : (roomToBuildingScore inst p.roomIndex == (b : Int)) = false := by
        have : roomToBuildingScore inst p.roomIndex ≠ (b : Int) := by
          intro heq
          exact h4 ⟨by omega, by omega⟩
        simpa using this
      rw [h0, hday, hatt, hbeq]
      simp

theorem usedBuildings_length (inst : ProblemInstance) (pls : List Placement)
    (attends : Placement → Bool) (d : Nat) :
    (usedBuildings inst pls attends d).length = inst.buildings.length := by
  unfold usedBuildings
  rw [usedBuildings_fold_length]
  simp

theorem getD_usedBuildings (inst : ProblemInstance) (pls : List Placement)
    (attends : Placement → Bool) (d b : Nat) (hb : b < inst.buildings.length) :
    (usedBuildings inst pls attends d).getD b false
      = pls.any (fun p => (0 ≤ p.activityId) && (p.day == (d : Int)) && attends p &&
          (roomToBuildingScore inst p.roomIndex == (b : Int))) := by
  unfold usedBuildings
  rw [getD_usedBuildings_fold inst attends d pls _ b (by simpa using hb)]
  rw [getD_replicate _ _ hb]
  simp

/-- Counting the true cells of a vector is counting the indices that read
    back true. -/
theorem countTrue_eq_range : ∀ (l : List Bool),
    countTrue l = (List.range l.length).countP (fun i => l.getD i false) := by
  intro l
  induction l with
  | nil => rfl
  | cons b t ih =>
    rw [List.length_cons, List.range_succ_eq_map]
    rw [show countTrue (b :: t) = countTrue t + (if b then 1 else 0) by
      unfold countTrue
      rw [List.countP_cons]]
    rw [List.countP_cons, List.countP_map]
    rw [show ((fun i => (b :: t).getD i false) ∘ Nat.succ)
        = (fun i => t.getD i false) from funext (fun i => rfl)]
    rw [← ih]
    rcases Bool.eq_false_or_eq_true b with hbf | hbt
    · rw [hbf]
      rfl
    · rw [hbt]
      rfl

/-- Mapping a function of the element over the index range is mapping it
    over the list. -/
theorem map_range_getD {α β : Type} (dflt : α) (f : α → β) :
    ∀ l : List α,
    (List.range l.length).map (fun i => f (l.getD i dflt)) = l.map f := by
  intro l
  induction l with
  | nil => rfl
  | cons x t ih =>
    rw [List.length_cons, List.range_succ_eq_map, List.map_cons, List.map_map]
    rw [show ((fun i => f ((x :: t).getD i dflt)) ∘ Nat.succ)
        = (fun i => f (t.getD i dflt)) from funext (fun i => rfl), ih]
    rfl

/-- When the keys are distinct, looking a key up by linear search returns
    exactly the index it came from. -/
theorem idxOfPred_key_nodup {α : Type} (f : α → Int) (dflt : α) :
    ∀ (l : List α), (l.map f).Nodup → ∀ i : Nat, i < l.length →
    idxOfPred (fun x => f x == f (l.getD i dflt)) l = some i := by
  intro l
  induction l with
  | nil =>
    intro _ i hi
    simp at hi
  | cons a t ih =>
    intro hnd i hi
    have hnd' : (f a ∉ t.map f) ∧ (t.map f).Nodup := by
      rw [List.map_cons, List.nodup_cons] at hnd
      exact hnd
    cases i with
    | zero =>
      show idxOfPred (fun x => f x == f a) (a :: t) = some 0
      simp [idxOfPred]
    | succ j =>
      have hj : j < t.length := by simpa using hi
      have hgd : (a :: t).getD (j + 1) dflt = t.getD j dflt := rfl
      rw [hgd]
      have hne : (f a == f (t.getD j dflt)) = false := by
        rcases Bool.eq_false_or_eq_true (f a == f (t.getD j dflt)) with htr | hfa
        swap
        · exact hfa
        · exact absurd
            (List.mem_map.mpr ⟨_, getD_mem dflt hj, (beq_iff_eq.mp htr).symm⟩)
            hnd'.1
      show (if (f a == f (t.getD j dflt)) = true then some 0
        else (idxOfPred (fun x => f x == f (t.getD j dflt)) t).map (· + 1)) = some (j + 1)
      rw [if_neg (by rw [hne]; simp), ih hnd'.2 j hj]
      rfl

/-- Searching a group id resolves to index `g` exactly when the id is the
    id stored at index `g` (group ids pairwise distinct). -/
theorem groupIndexQ_beq_eq (inst : ProblemInstance)
    (hg : (inst.groups.map (fun g => g.id)).Nodup) {g : Nat}
    (hglt : g < inst.groups.length) (gid : Int) :
    (groupIndexQ inst gid == some g)
      = ((inst.groups.getD g default).id == gid) := by
  rcases Bool.eq_false_or_eq_true ((inst.groups.getD g default).id == gid)
    with htr | hfa
  swap
  · rw [hfa]
    rcases Bool.eq_false_or_eq_true (groupIndexQ inst gid == some g) with hl | hl
    swap
    · exact hl
    · exfalso
      have hq : idxOfPred (fun gr : Group => gr.id == gid) inst.groups = some g :=
        beq_iff_eq.mp hl
      have := idxOfPred_getD default hq
      rw [this] at hfa
      exact Bool.noConfusion hfa
  · rw [htr]
    have hgid : (inst.groups.getD g default).id = gid := beq_iff_eq.mp htr
    have key : idxOfPred (fun x => x.id == (inst.groups.getD g default).id)
        inst.groups = some g :=
      idxOfPred_key_nodup (fun gr => gr.id) default inst.groups hg g hglt
    rw [hgid] at key
    have hq : groupIndexQ inst gid = some g := key
    rw [hq]
    simp

/-- The same for professor ids. -/
theorem profIndexQ_beq_eq (inst : ProblemInstance)
    (hp : (inst.professors.map (fun p => p.id)).Nodup) {pr : Nat}
    (hplt : pr < inst.professors.length) (x : Int) :
    (profIndexQ inst x == some pr)
      = (x == (inst.professors.getD pr default).id) := by
  rcases Bool.eq_false_or_eq_true (x == (inst.professors.getD pr default).id)
    with htr | hfa
  swap
  · rw [hfa]
    rcases Bool.eq_false_or_eq_true (profIndexQ inst x == some pr) with hl | hl
    swap
    · exact hl
    · exfalso
      have hq : idxOfPred (fun p : Professor => p.id == x) inst.professors
          = some pr := beq_iff_eq.mp hl
      have hpr := idxOfPred_getD default hq
      have : x = (inst.professors.getD pr default).id := (beq_iff_eq.mp hpr).symm
      rw [this] at hfa
      simp at hfa
  · rw [htr]
    have hx : x = (inst.professors.getD pr default).id := beq_iff_eq.mp htr
    have key : idxOfPred (fun p => p.id == (inst.professors.getD pr default).id)
        inst.professors = some pr :=
      idxOfPred_key_nodup (fun p => p.id) default inst.professors hp pr hplt
    rw [← hx] at key
    have hq : profIndexQ inst x = some pr := key
    rw [hq]
    simp

/-- Searching a collection of group ids for one resolving to index `g` is
    asking whether the collection holds the id stored at index `g`. -/
theorem any_groupIndexQ_eq_contains (inst : ProblemInstance)
    (hg : (inst.groups.map (fun g => g.id)).Nodup) {g : Nat}
    (hglt : g < inst.groups.length) (gids : List Int) :
    gids.any (fun gid => groupIndexQ inst gid == some g)
      = gids.contains (inst.groups.getD g default).id := by
  induction gids with
  | nil => rfl
  | cons gid rest ih =>
    rw [List.any_cons, List.contains_cons, ih]
    congr 1
    rw [groupIndexQ_beq_eq inst hg hglt gid]

/-- Sum over the index range versus sum over the list. -/
theorem sum_map_range_getD {α : Type} (dflt : α) (f0 : Nat → Nat) (f1 : α → Nat)
    (l : List α) (h : ∀ i, i < l.length → f0 i = f1 (l.getD i dflt)) :
    ((List.range l.length).map f0).sum = (l.map f1).sum := by
  rw [← map_range_getD dflt f1 l]
  congr 1
  apply List.map_congr_left
  intro i hi
  exact h i (List.mem_range.mp hi)

/-! Spec-side definitions for (b) and (c), following the words of the
    claim: a resource's occupancy and visited buildings are read directly
    off the placement vector, resources identified by their ids. -/

/-- Group `gid` is busy at (d, s): some assigned entry at that day and slot
    belongs to an activity listing `gid` among its groups. -/
def groupOccupies (inst : ProblemInstance) (pls : List Placement)
    (gid : Int) (d s : Nat) : Bool :=
  pls.any (fun p => (0 ≤ p.activityId) && (p.day == (d : Int)) &&
    (p.slot == (s : Int)) &&
    (inst.activities.getD p.activityId.toNat default).groupIds.contains gid)

/-- Professor `pid` is busy at (d, s). -/
def profOccupies (inst : ProblemInstance) (pls : List Placement)
    (pid : Int) (d s : Nat) : Bool :=
  pls.any (fun p => (0 ≤ p.activityId) && (p.day == (d : Int)) &&
    (p.slot == (s : Int)) &&
    ((inst.activities.getD p.activityId.toNat default).profId == pid))

/-- Spec reading of the group gap penalty: per (group, day), the unoccupied
    slots strictly between the first and last occupied slot. -/
def specGroupGap (inst : ProblemInstance) (pls : List Placement) : Nat :=
  (inst.groups.map (fun g =>
    ((List.range 5).map (fun d =>
      specGapRow (fun s => groupOccupies inst pls g.id d s))).sum)).sum

/-- Spec reading of the professor gap penalty. -/
def specProfGap (inst : ProblemInstance) (pls : List Placement) : Nat :=
  (inst.professors.map (fun pr =>
    ((List.range 5).map (fun d =>
      specGapRow (fun s => profOccupies inst pls pr.id d s))).sum)).sum

/-- The resource described by `attends` visits building `b` on day `d`. -/
def visitsBuilding (inst : ProblemInstance) (pls : List Placement)
    (attends : Placement → Bool) (d b : Nat) : Bool :=
  pls.any (fun p => (0 ≤ p.activityId) && (p.day == (d : Int)) && attends p &&
    (roomToBuildingScore inst p.roomIndex == (b : Int)))

/-- Number of distinct buildings the resource visits on day `d`. -/
def specDistinctBuildings (inst : ProblemInstance) (pls : List Placement)
    (attends : Placement → Bool) (d : Nat) : Nat :=
  ((List.range inst.buildings.length).filter
    (fun b => visitsBuilding inst pls attends d b)).length

/-- Spec reading of the building-locality penalty for groups:
    max(0, distinct buildings − 2) per (group, day). -/
def specGroupBuildingPenalty (inst : ProblemInstance)
    (pls : List Placement) : Nat :=
  (inst.groups.map (fun g =>
    ((List.range 5).map (fun d =>
      specDistinctBuildings inst pls
        (fun p => (inst.activities.getD p.activityId.toNat default).groupIds.contains
          g.id) d - 2)).sum)).sum

/-- Spec reading of the building-locality penalty for professors. -/
def specProfBuildingPenalty (inst : ProblemInstance)
    (pls : List Placement) : Nat :=
  (inst.professors.map (fun pr =>
    ((List.range 5).map (fun d =>
      specDistinctBuildings inst pls
        (fun p => (inst.activities.getD p.activityId.toNat default).profId ==
          pr.id) d - 2)).sum)).sum

/-- The scoring reference of the claim: (a) + (b) + (c). -/
def specScore (inst : ProblemInstance) (pls : List Placement) : Int :=
  (lateSpec pls : Int) + (specGroupGap inst pls : Int)
    + (specProfGap inst pls : Int) + (specGroupBuildingPenalty inst pls : Int)
    + (specProfBuildingPenalty inst pls : Int)

theorem lateSlotPenalty_eq_lateSpec (pls : List Placement) :
    lateSlotPenalty pls = lateSpec pls := by
  unfold lateSlotPenalty lateSpec
  congr 1
  funext p
  congr 1
  rw [← decide_not, decide_eq_decide]
  omega

theorem extraBuildings_eq (c : Nat) : extraBuildings c = c - 2 := by
  unfold extraBuildings
  by_cases h : 2 < c
  · rw [if_pos h]
  · rw [if_neg h]
    omega

theorem countTrue_usedBuildings_eq_spec (inst : ProblemInstance)
    (pls : List Placement) (attends : Placement → Bool) (d : Nat) :
    countTrue (usedBuildings inst pls attends d)
      = specDistinctBuildings inst pls attends d := by
  rw [countTrue_eq_range, usedBuildings_length]
  unfold specDistinctBuildings
  rw [List.countP_eq_length_filter]
  congr 1
  apply List.filter_congr
  intro b hb
  rw [getD_usedBuildings inst pls attends d b (List.mem_range.mp hb)]
  rfl

theorem groupGapPenalty_eq_spec (inst : ProblemInstance) (pls : List Placement)
    (hg : (inst.groups.map (fun g => g.id)).Nodup)
    (hdom : ∀ p ∈ pls, 0 ≤ p.activityId →
      0 ≤ p.day ∧ p.day < 5 ∧ 0 ≤ p.slot ∧ p.slot < 6) :
    groupGapPenalty inst pls = specGroupGap inst pls := by
  unfold groupGapPenalty specGroupGap
  refine sum_map_range_getD default _ _ inst.groups ?_
  intro g hglt
  show ((List.range 5).map (fun d =>
      gapCount (fun s => getB (fillGroupOcc inst pls) g d s))).sum
    = ((List.range 5).map (fun d =>
      specGapRow (fun s => groupOccupies inst pls
        (inst.groups.getD g default).id d s))).sum
  congr 1
  apply List.map_congr_left
  intro d _
  show gapCount (fun s => getB (fillGroupOcc inst pls) g d s)
    = specGapRow (fun s => groupOccupies inst pls
      (inst.groups.getD g default).id d s)
  rw [gapCount_eq_specGapRow]
  congr 1
  funext s
  rw [getB_fillGroupOcc inst pls hdom g d s]
  unfold groupOccupies
  congr 1
  funext p
  congr 1
  exact any_groupIndexQ_eq_contains inst hg hglt _

theorem profGapPenalty_eq_spec (inst : ProblemInstance) (pls : List Placement)
    (hp : (inst.professors.map (fun p => p.id)).Nodup)
    (hdom : ∀ p ∈ pls, 0 ≤ p.activityId →
      0 ≤ p.day ∧ p.day < 5 ∧ 0 ≤ p.slot ∧ p.slot < 6) :
    profGapPenalty inst pls = specProfGap inst pls := by
  unfold profGapPenalty specProfGap
  refine sum_map_range_getD default _ _ inst.professors ?_
  intro pr hplt
  show ((List.range 5).map (fun d =>
      gapCount (fun s => getB (fillProfOcc inst pls) pr d s))).sum
    = ((List.range 5).map (fun d =>
      specGapRow (fun s => profOccupies inst pls
        (inst.professors.getD pr default).id d s))).sum
  congr 1
  apply List.map_congr_left
  intro d _
  show gapCount (fun s => getB (fillProfOcc inst pls) pr d s)
    = specGapRow (fun s => profOccupies inst pls
      (inst.professors.getD pr default).id d s)
  rw [gapCount_eq_specGapRow]
  congr 1
  funext s
  rw [getB_fillProfOcc inst pls hdom pr d s]
  unfold profOccupies
  congr 1
  funext p
  congr 1
  exact profIndexQ_beq_eq inst hp hplt _

theorem groupBuildingPenalty_eq_spec (inst : ProblemInstance)
    (pls : List Placement) :
    groupBuildingPenalty inst pls = specGroupBuildingPenalty inst pls := by
  unfold groupBuildingPenalty specGroupBuildingPenalty
  refine sum_map_range_getD default _ _ inst.groups ?_
  intro g hglt
  show ((List.range 5).map (fun d =>
      extraBuildings (countTrue (usedBuildings inst pls
        (fun p => (inst.activities.getD p.activityId.toNat default).groupIds.contains
          (inst.groups.getD g default).id) d)))).sum
    = ((List.range 5).map (fun d =>
      specDistinctBuildings inst pls
        (fun p => (inst.activities.getD p.activityId.toNat default).groupIds.contains
          (inst.groups.getD g default).id) d - 2)).sum
  congr 1
  apply List.map_congr_left
  intro d _
  show extraBuildings (countTrue (usedBuildings inst pls
      (fun p => (inst.activities.getD p.activityId.toNat default).groupIds.contains
        (inst.groups.getD g default).id) d))
    = specDistinctBuildings inst pls
      (fun p => (inst.activities.getD p.activityId.toNat default).groupIds.contains
        (inst.groups.getD g default).id) d - 2
  rw [countTrue_usedBuildings_eq_spec, extraBuildings_eq]

theorem profBuildingPenalty_eq_spec (inst : ProblemInstance)
    (pls : List Placement) :
    profBuildingPenalty inst pls = specProfBuildingPenalty inst pls := by
  unfold profBuildingPenalty specProfBuildingPenalty
  refine sum_map_range_getD default _ _ inst.professors ?_
  intro pr hplt
  show ((List.range 5).map (fun d =>
      extraBuildings (countTrue (usedBuildings inst pls
        (fun p => (inst.activities.getD p.activityId.toNat default).profId ==
          (inst.professors.getD pr default).id) d)))).sum
    = ((List.range 5).map (fun d =>
      specDistinctBuildings inst pls
        (fun p => (inst.activities.getD p.activityId.toNat default).profId ==
          (inst.professors.getD pr default).id) d - 2)).sum
  congr 1
  apply List.map_congr_left
  intro d _
  show extraBuildings (countTrue (usedBuildings inst pls
      (fun p => (inst.activities.getD p.activityId.toNat default).profId ==
        (inst.professors.getD pr default).id) d))
    = specDistinctBuildings inst pls
      (fun p => (inst.activities.getD p.activityId.toNat default).profId ==
        (inst.professors.getD pr default).id) d - 2
  rw [countTrue_usedBuildings_eq_spec, extraBuildings_eq]

/-- C6: the solver's computeScore equals the claim's reference definition:
    one point per assigned entry in slot 4 or 5, plus the per-(resource, day)
    idle slots strictly between the first and last occupied slot, plus
    max(0, distinct visited buildings − 2) per (resource, day), over both
    groups and professors; unassigned entries are ignored throughout.
    Group and professor ids are assumed pairwise distinct and assigned
    entries in range (both hold for the instances the search builds). -/
theorem C6_compute_score_spec (inst : ProblemInstance) (pls : List Placement)
    (hg : (inst.groups.map (fun g => g.id)).Nodup)
    (hp : (inst.professors.map (fun p => p.id)).Nodup)
    (hdom : ∀ p ∈ pls, 0 ≤ p.activityId →
      0 ≤ p.day ∧ p.day < 5 ∧ 0 ≤ p.slot ∧ p.slot < 6) :
    computeScore inst pls = specScore inst pls := by
  unfold computeScore specScore
  rw [lateSlotPenalty_eq_lateSpec, groupGapPenalty_eq_spec inst pls hg hdom,
    profGapPenalty_eq_spec inst pls hp hdom, groupBuildingPenalty_eq_spec,
    profBuildingPenalty_eq_spec]

theorem C6_compute_score_spec_witness :
    ((demoInst3.groups.map (fun g => g.id)).Nodup ∧
     (demoInst3.professors.map (fun p => p.id)).Nodup ∧
     (∀ p ∈ demoOut3, 0 ≤ p.activityId →
       0 ≤ p.day ∧ p.day < 5 ∧ 0 ≤ p.slot ∧ p.slot < 6)) ∧
    computeScore demoInst3 demoOut3 = specScore demoInst3 demoOut3 :=
  ⟨⟨by decide, by decide, by decide⟩,
   C6_compute_score_spec demoInst3 demoOut3 (by decide) (by decide) (by decide)⟩

/-! ### Claim C10: no at-most-once guard in TimetableState -/

/-- Claim C10: TimetableState does not prevent committing the same activity
    twice — on a concrete instance, placing activity 0 at (0,0,0) and then
    again at (0,2,0) both succeed, leaving its professor with 4 hours;
    only the solvers' backtracking discipline prevents this. -/
theorem C10_no_double_placement_guard :
    (place demoInst ⟨0, 0, ActivityType.COURSE, 0, [0]⟩ 0 0 0 (mkState demoInst)).1
      = true ∧
    (place demoInst ⟨0, 0, ActivityType.COURSE, 0, [0]⟩ 0 2 0
      (place demoInst ⟨0, 0, ActivityType.COURSE, 0, [0]⟩ 0 0 0 (mkState demoInst)).2).1
      = true ∧
    ((place demoInst ⟨0, 0, ActivityType.COURSE, 0, [0]⟩ 0 2 0
      (place demoInst ⟨0, 0, ActivityType.COURSE, 0, [0]⟩ 0 0 0
        (mkState demoInst)).2).2).profHours = [4, 0] ∧
    ((0 : Int), (0 : Int)) ≠ ((0 : Int), (2 : Int)) := by
  decide

end Timetable
